import Mathlib

/-!
Verification of the real-time presence and room-relay subsystem of the
drawback backend (`DrawGateway` in `src/realtime/draw.gateway.ts`).

The gateway is embedded shallowly: the process-local maps
(`socketToUser`, `socketToRoom`, `strokeRateMap`, `clearRateMap`), the
socket.io room membership, and the Redis user→socket hash are modelled
as association lists inside a single state record; each message handler
becomes a pure function from state and input to a new state plus the
list of emissions it performs.  External collaborators (JWT
verification, `ChatService.getAcceptedRoomForUser`) are passed in as
function parameters, matching the injected-capability style of the
source.
-/

namespace Drawback

/-- Max draw.stroke events allowed per socket per second
(`STROKE_RATE_LIMIT` in the source). -/
def STROKE_RATE_LIMIT : Nat := 60

/-- Max draw.clear events allowed per socket per 5 seconds
(`CLEAR_RATE_LIMIT`). -/
def CLEAR_RATE_LIMIT : Nat := 5

/-- Length of the clear-rate window in milliseconds (`CLEAR_RATE_WINDOW_MS`). -/
def CLEAR_RATE_WINDOW_MS : Nat := 5000

/-- Length of the stroke-rate window in milliseconds (the literal `1_000`
in `isStrokeRateLimited`). -/
def STROKE_RATE_WINDOW_MS : Nat := 1000

/-- Lookup in an association list, mirroring `Map.get`. -/
def lookupAssoc {α : Type} : List (String × α) → String → Option α
  | [], _ => none
  | (k, v) :: rest, key => if k = key then some v else lookupAssoc rest key

/-- Overwrite-or-append update of an association list, mirroring `Map.set`. -/
def setAssoc {α : Type} : List (String × α) → String → α → List (String × α)
  | [], k, v => [(k, v)]
  | (k', v') :: rest, k, v =>
    if k' = k then (k, v) :: rest else (k', v') :: setAssoc rest k v

/-- Removal from an association list, mirroring `Map.delete`. -/
def eraseAssoc {α : Type} : List (String × α) → String → List (String × α)
  | [], _ => []
  | (k', v') :: rest, k =>
    if k' = k then eraseAssoc rest k else (k', v') :: eraseAssoc rest k

/-- One socket.io handshake: the socket id plus the three credential
channels inspected by `extractUserIdFromToken` (`handshake.auth.token`,
`handshake.headers.authorization`, `handshake.query.token`). -/
structure Handshake where
  socketId : String
  authToken : Option String
  authHeader : Option String
  queryToken : Option String
deriving DecidableEq, Repr

/-- Replace the first occurrence of `pat` in a character list — the
semantics of JavaScript `String.replace` with a string pattern (which,
unlike Lean's `String.replace`, rewrites only the first occurrence). -/
def replaceFirstCh (pat : List Char) : List Char → List Char
  | [] => []
  | c :: rest =>
    if pat.isPrefixOf (c :: rest) then (c :: rest).drop pat.length
    else c :: replaceFirstCh pat rest

/-- `s.replace('Bearer ', '')` from the source: drop the first occurrence
of `"Bearer "`. -/
def bearerStrip (s : String) : String :=
  ⟨replaceFirstCh "Bearer ".toList s.toList⟩

/-- The credential-channel selection of `extractUserIdFromToken`:
`auth['token'] ?? headers.authorization?.replace('Bearer ', '') ??
query['token']`.  JavaScript `??` only falls through on null/undefined,
which the `Option` match reproduces. -/
def extractToken (h : Handshake) : Option String :=
  match h.authToken with
  | some t => some t
  | none =>
    match h.authHeader with
    | some a => some (bearerStrip a)
    | none => h.queryToken

/-- `extractUserIdFromToken`: select the token, reject empty or missing
tokens (`!token`), then verify through the injected JWT collaborator and
return the `sub` claim.  `verify` returns `none` when `jwtService.verify`
throws (malformed, expired or invalid signature). -/
def extractUserIdFromToken (verify : String → Option String) (h : Handshake) :
    Option String :=
  match extractToken h with
  | none => none
  | some t => if t = "" then none else verify t

/-- The user a handshake binds on success: `extractUserIdFromToken`
filtered through the `!userId` falsiness check in `handleConnection`
(an empty `sub` is also rejected). -/
def authUser (verify : String → Option String) (h : Handshake) :
    Option String :=
  match extractUserIdFromToken verify h with
  | none => none
  | some u => if u = "" then none else some u

/-- Payload of a server→client event. -/
inductive Payload where
  | chatJoined (roomId requestId : String) (peers : List String)
  | peerJoined (userId : String)
  | peerLeft (userId : Option String)
  | drawLeft
  | strokeData (payload : Nat)
  | clearData (payload : Nat)
  | errorMsg (message : String) (status : Option Nat)
deriving DecidableEq, Repr

/-- One observable output of a handler: a direct `client.emit`, a
`client.to(room).emit(...)` broadcast (delivered to every current member
of the room except the sender), or a forced `client.disconnect()`. -/
inductive Emission where
  | toClient (socketId : String) (ev : Payload)
  | toRoomExcept (roomId sender : String) (ev : Payload)
  | forceClose (socketId : String)
deriving DecidableEq, Repr

/-- Per-socket rate-limit record: `{ count, windowStart }`. -/
structure RateEntry where
  count : Nat
  windowStart : Nat
deriving DecidableEq, Repr

/-- The gateway's mutable state for one process (plus the shared Redis
hash), all represented as association lists:
* `connected` — socket ids currently accepted by this server;
* `socketToUser` — the local `socketToUser` map;
* `socketToRoom` — the local `socketToRoom` map;
* `roomPairs` — the socket.io adapter's room membership, as
  (socketId, roomId) pairs in join order (a socket may a priori appear
  under several rooms; the code keeps it to at most one);
* `strokeRateMap`, `clearRateMap` — the rate-limit maps;
* `redisBinding` — the Redis `drawback:user-socket` hash, userId → socketId. -/
structure GState where
  connected : List String
  socketToUser : List (String × String)
  socketToRoom : List (String × String)
  roomPairs : List (String × String)
  strokeRateMap : List (String × RateEntry)
  clearRateMap : List (String × RateEntry)
  redisBinding : List (String × String)
deriving DecidableEq, Repr

/-- The empty gateway state of a freshly started process. -/
def initState : GState := ⟨[], [], [], [], [], [], []⟩

/-- `client.join(roomId)`: add the socket to the room's member set
(idempotent, like socket.io's `Set`-based rooms). -/
def roomJoin (pairs : List (String × String)) (c r : String) :
    List (String × String) :=
  if (c, r) ∈ pairs then pairs else pairs ++ [(c, r)]

/-- `client.leave(roomId)`: remove the socket from that room. -/
def roomLeave : List (String × String) → String → String → List (String × String)
  | [], _, _ => []
  | p :: rest, c, r =>
    if p = (c, r) then roomLeave rest c r else p :: roomLeave rest c r

/-- Remove every membership pair of a socket — what socket.io does to
its adapter state when a socket disconnects. -/
def roomPurge : List (String × String) → String → List (String × String)
  | [], _ => []
  | p :: rest, c =>
    if p.1 = c then roomPurge rest c else p :: roomPurge rest c

/-- Remove a socket id from the connected list. -/
def removeAll : List String → String → List String
  | [], _ => []
  | x :: rest, c =>
    if x = c then removeAll rest c else x :: removeAll rest c

/-- `server.in(roomId).allSockets()`: the socket ids currently in the
room, in join order. -/
def membersOf : List (String × String) → String → List String
  | [], _ => []
  | (a, b) :: rest, r =>
    if b = r then a :: membersOf rest r else membersOf rest r

/-- The peer-collection loop of `joinChat`: walk the room's sockets,
skip the joiner itself, look each peer up in `socketToUser` and keep the
truthy user ids. -/
def collectPeers (stu : List (String × String)) (selfId : String) :
    List String → List String
  | [] => []
  | s :: rest =>
    if s = selfId then collectPeers stu selfId rest
    else
      match lookupAssoc stu s with
      | none => collectPeers stu selfId rest
      | some u =>
        if u = "" then collectPeers stu selfId rest
        else u :: collectPeers stu selfId rest

/-- The shared body of `isStrokeRateLimited`/`isClearRateLimited`:
fetch (or default) the socket's window entry; if the window has
elapsed start a new one admitting this event, otherwise bump the count
and flag the event when the bumped count exceeds the limit.  Returns
the flag together with the updated map. -/
def rateCheck (limit window : Nat) (m : List (String × RateEntry))
    (c : String) (now : Nat) : Bool × List (String × RateEntry) :=
  let entry := (lookupAssoc m c).getD ⟨0, now⟩
  if window ≤ now - entry.windowStart then
    (false, setAssoc m c ⟨1, now⟩)
  else
    (decide (limit < entry.count + 1), setAssoc m c ⟨entry.count + 1, entry.windowStart⟩)

/-- `isStrokeRateLimited`: 1-second window, limit `STROKE_RATE_LIMIT`. -/
def isStrokeRateLimited (m : List (String × RateEntry)) (c : String)
    (now : Nat) : Bool × List (String × RateEntry) :=
  rateCheck STROKE_RATE_LIMIT STROKE_RATE_WINDOW_MS m c now

/-- `isClearRateLimited`: `CLEAR_RATE_WINDOW_MS` window, limit
`CLEAR_RATE_LIMIT`. -/
def isClearRateLimited (m : List (String × RateEntry)) (c : String)
    (now : Nat) : Bool × List (String × RateEntry) :=
  rateCheck CLEAR_RATE_LIMIT CLEAR_RATE_WINDOW_MS m c now

/-- `handleConnection`: extract and verify the credential; on any
failure emit the generic `error { message: 'Unauthorized' }` and
forcibly close; on success record the socket locally and overwrite the
Redis user→socket binding (last writer wins). -/
def handleConnection (verify : String → Option String) (st : GState)
    (h : Handshake) : GState × List Emission :=
  match extractUserIdFromToken verify h with
  | none =>
    (st, [.toClient h.socketId (.errorMsg "Unauthorized" none),
          .forceClose h.socketId])
  | some userId =>
    if userId = "" then
      (st, [.toClient h.socketId (.errorMsg "Unauthorized" none),
            .forceClose h.socketId])
    else
      ({ st with
          connected := h.socketId :: st.connected,
          socketToUser := setAssoc st.socketToUser h.socketId userId,
          redisBinding := setAssoc st.redisBinding userId h.socketId }, [])

/-- `joinChat`: authenticate, resolve the room through the injected
`getAcceptedRoomForUser` collaborator (`resolve req userId` returns the
room id or a thrown message/status pair), leave any different previous
room (emitting `draw.peer.left` there), join the new room, collect the
peer snapshot from the room's sockets excluding the joiner, emit
`chat.joined` to the joiner and `draw.peer.joined` to the others. -/
def joinChat (resolve : String → String → Except (String × Nat) String)
    (st : GState) (c req : String) : GState × List Emission :=
  match lookupAssoc st.socketToUser c with
  | none => (st, [.toClient c (.errorMsg "Socket not authenticated" (some 401))])
  | some userId =>
    match resolve req userId with
    | .error e => (st, [.toClient c (.errorMsg e.1 (some e.2))])
    | .ok roomId =>
      let prev := lookupAssoc st.socketToRoom c
      let leaveStep : List (String × String) × List Emission :=
        match prev with
        | some p =>
          if p ≠ roomId then
            (roomLeave st.roomPairs c p,
             [Emission.toRoomExcept p c (.peerLeft (some userId))])
          else (st.roomPairs, [])
        | none => (st.roomPairs, [])
      let pairs2 := roomJoin leaveStep.1 c roomId
      let st' := { st with
        roomPairs := pairs2,
        socketToRoom := setAssoc st.socketToRoom c roomId }
      let peers := collectPeers st'.socketToUser c (membersOf pairs2 roomId)
      (st', leaveStep.2 ++
        [.toClient c (.chatJoined roomId req peers),
         .toRoomExcept roomId c (.peerJoined userId)])

/-- `leaveChat` (`draw.leave`): if the socket is in a room, notify the
room, leave it and drop the map entry; always confirm with `draw.left`. -/
def leaveChat (st : GState) (c : String) : GState × List Emission :=
  let userId := lookupAssoc st.socketToUser c
  match lookupAssoc st.socketToRoom c with
  | some room =>
    ({ st with
        roomPairs := roomLeave st.roomPairs c room,
        socketToRoom := eraseAssoc st.socketToRoom c },
     [.toRoomExcept room c (.peerLeft userId), .toClient c .drawLeft])
  | none => (st, [.toClient c .drawLeft])

/-- `drawStroke` (`draw.stroke`): rate-gate first (silent drop when
limited), then require room membership (error otherwise), then relay
the opaque payload to the rest of the room. -/
def drawStroke (st : GState) (c : String) (now pay : Nat) :
    GState × List Emission :=
  let gate := isStrokeRateLimited st.strokeRateMap c now
  let st1 := { st with strokeRateMap := gate.2 }
  if gate.1 then (st1, [])
  else
    match lookupAssoc st1.socketToRoom c with
    | none => (st1, [.toClient c (.errorMsg "Not in a room" (some 403))])
    | some room => (st1, [.toRoomExcept room c (.strokeData pay)])

/-- `clearCanvas` (`draw.clear`): rate-gate first (explicit error when
limited), then require room membership, then relay. -/
def clearCanvas (st : GState) (c : String) (now pay : Nat) :
    GState × List Emission :=
  let gate := isClearRateLimited st.clearRateMap c now
  let st1 := { st with clearRateMap := gate.2 }
  if gate.1 then
    (st1, [.toClient c
      (.errorMsg "Too many clear events. Max 5 per 5s." (some 403))])
  else
    match lookupAssoc st1.socketToRoom c with
    | none => (st1, [.toClient c (.errorMsg "Not in a room" (some 403))])
    | some room => (st1, [.toRoomExcept room c (.clearData pay)])

/-- `handleDisconnect`: socket.io has already removed the socket from
its rooms when the `disconnect` event fires, so the adapter pairs and
the `connected` list are cleaned first; then the handler notifies the
old room (read from `socketToRoom`), deletes the local maps and rate
counters, and performs the Redis compare-and-delete (`hdel` only when
the hash still names this socket). -/
def handleDisconnect (st : GState) (c : String) : GState × List Emission :=
  let st0 := { st with
    roomPairs := roomPurge st.roomPairs c,
    connected := removeAll st.connected c }
  match lookupAssoc st0.socketToUser c with
  | none => (st0, [])
  | some userId =>
    let roomStep : GState × List Emission :=
      match lookupAssoc st0.socketToRoom c with
      | some room =>
        ({ st0 with socketToRoom := eraseAssoc st0.socketToRoom c },
         [Emission.toRoomExcept room c (.peerLeft (some userId))])
      | none => (st0, [])
    let st1 := roomStep.1
    let st2 := { st1 with
      socketToUser := eraseAssoc st1.socketToUser c,
      strokeRateMap := eraseAssoc st1.strokeRateMap c,
      clearRateMap := eraseAssoc st1.clearRateMap c }
    let st3 :=
      match lookupAssoc st2.redisBinding userId with
      | some cur =>
        if cur = c then { st2 with redisBinding := eraseAssoc st2.redisBinding userId }
        else st2
      | none => st2
    (st3, roomStep.2)

/-- One inbound event at the gateway. -/
inductive Op where
  | connect (h : Handshake)
  | join (c req : String)
  | leave (c : String)
  | stroke (c : String) (now pay : Nat)
  | clear (c : String) (now pay : Nat)
  | disconnect (c : String)
deriving DecidableEq, Repr

/-- Dispatch one event to its handler. -/
def step (verify : String → Option String)
    (resolve : String → String → Except (String × Nat) String)
    (st : GState) : Op → GState × List Emission
  | .connect h => handleConnection verify st h
  | .join c req => joinChat resolve st c req
  | .leave c => leaveChat st c
  | .stroke c now pay => drawStroke st c now pay
  | .clear c now pay => clearCanvas st c now pay
  | .disconnect c => handleDisconnect st c

/-- Run a sequence of events, keeping only the final state. -/
def runOps (verify : String → Option String)
    (resolve : String → String → Except (String × Nat) String)
    (st : GState) (ops : List Op) : GState :=
  ops.foldl (fun s op => (step verify resolve s op).1) st

/-- Well-formedness of one event against the current state: a connect
carries a fresh socket id (socket.io never reuses a live id), and every
other event originates from a currently connected socket. -/
def wfOp (st : GState) : Op → Bool
  | .connect h => !(st.connected.contains h.socketId)
  | .join c _ => st.connected.contains c
  | .leave c => st.connected.contains c
  | .stroke c _ _ => st.connected.contains c
  | .clear c _ _ => st.connected.contains c
  | .disconnect c => st.connected.contains c

/-- Well-formedness of an event trace from a given state. -/
def wfOps (verify : String → Option String)
    (resolve : String → String → Except (String × Nat) String)
    (st : GState) : List Op → Bool
  | [] => true
  | op :: rest => wfOp st op && wfOps verify resolve (step verify resolve st op).1 rest

/-- The socket id bound by the most recent successful connect for a
given user in a trace (`none` when the user never connected). -/
def lastConnect (verify : String → Option String) (ops : List Op)
    (u : String) : Option String :=
  ops.foldl
    (fun acc op =>
      match op with
      | .connect h => if authUser verify h = some u then some h.socketId else acc
      | _ => acc)
    none

/-- Outputs of a burst of `draw.stroke` events from one socket at the
given timestamps, one emission list per event. -/
def strokeSeq (st : GState) (c : String) : List Nat → List (List Emission)
  | [] => []
  | t :: rest =>
    let r := drawStroke st c t 0
    r.2 :: strokeSeq r.1 c rest

/-- Outputs of a burst of `draw.clear` events from one socket at the
given timestamps, one emission list per event. -/
def clearSeq (st : GState) (c : String) : List Nat → List (List Emission)
  | [] => []
  | t :: rest =>
    let r := clearCanvas st c t 0
    r.2 :: clearSeq r.1 c rest

/-- Concrete JWT collaborator used by the closed sample runs. -/
def demoVerify : String → Option String := fun t =>
  if t = "tok1" then some "u1"
  else if t = "tok2" then some "u2"
  else none

/-- Concrete room-authorization collaborator used by the closed sample
runs: request `"r"` resolves to room `"room1"`, anything else is denied
like `getAcceptedRoomForUser` throwing `NotFoundException`. -/
def demoResolve : String → String → Except (String × Nat) String := fun req _ =>
  if req = "r" then Except.ok "room1"
  else Except.error ("Chat request not found", 404)

/-- Handshake of the sample user `u1`. -/
def hs1 : Handshake := ⟨"s1", some "tok1", none, none⟩

/-- Handshake of the sample user `u2`. -/
def hs2 : Handshake := ⟨"s2", some "tok2", none, none⟩

/-- Sample state: `u1` connected but not in any room. -/
def authState : GState := runOps demoVerify demoResolve initState [.connect hs1]

/-- Sample state: `u1` connected and alone in `room1`. -/
def soloState : GState :=
  runOps demoVerify demoResolve initState [.connect hs1, .join "s1" "r"]

/-- Sample state: `u1` and `u2` connected and both in `room1`. -/
def pairState : GState :=
  runOps demoVerify demoResolve initState
    [.connect hs1, .connect hs2, .join "s1" "r", .join "s2" "r"]

/-- Structural invariant of the gateway state, maintained by every
handler: the adapter's room pairs agree with the `socketToRoom` map
(hence each socket is in at most one room), every socket with a room is
authenticated, and recorded user ids are never the empty string. -/
structure StateInv (st : GState) : Prop where
  pairs_map : ∀ c r, (c, r) ∈ st.roomPairs ↔
    lookupAssoc st.socketToRoom c = some r
  room_user : ∀ c r, lookupAssoc st.socketToRoom c = some r →
    lookupAssoc st.socketToUser c ≠ none
  user_ne : ∀ c u, lookupAssoc st.socketToUser c = some u → u ≠ ""

/-- Resource invariant for the rate-limit maps: counter entries exist
only for currently connected sockets, and every connected socket is
authenticated. -/
structure RateInv (st : GState) : Prop where
  stroke_conn : ∀ c, lookupAssoc st.strokeRateMap c ≠ none → c ∈ st.connected
  clear_conn : ∀ c, lookupAssoc st.clearRateMap c ≠ none → c ∈ st.connected
  conn_user : ∀ c, c ∈ st.connected → lookupAssoc st.socketToUser c ≠ none

section AssocLemmas

variable {α : Type}

theorem lookupAssoc_set_self (m : List (String × α)) (k : String) (v : α) :
    lookupAssoc (setAssoc m k v) k = some v := by
  induction m with
  | nil => simp [setAssoc, lookupAssoc]
  | cons p rest ih =>
    obtain ⟨k', v'⟩ := p
    by_cases h : k' = k
    · simp [setAssoc, h, lookupAssoc]
    · simp [setAssoc, h, lookupAssoc, ih]

theorem lookupAssoc_set_ne (m : List (String × α)) {k k' : String} (v : α)
    (h : k ≠ k') : lookupAssoc (setAssoc m k v) k' = lookupAssoc m k' := by
  induction m with
  | nil => simp [setAssoc, lookupAssoc, h]
  | cons p rest ih =>
    obtain ⟨k₀, v₀⟩ := p
    by_cases h₀ : k₀ = k
    · subst h₀; simp [setAssoc, lookupAssoc, h]
    · simp only [setAssoc, if_neg h₀, lookupAssoc]
      by_cases h₁ : k₀ = k'
      · simp [h₁]
      · simp [h₁, ih]

theorem lookupAssoc_erase (m : List (String × α)) (k k' : String) :
    lookupAssoc (eraseAssoc m k) k' =
      if k = k' then none else lookupAssoc m k' := by
  induction m with
  | nil => simp [eraseAssoc, lookupAssoc]
  | cons p rest ih =>
    obtain ⟨k₀, v₀⟩ := p
    by_cases h₀ : k₀ = k
    · subst h₀
      rw [show eraseAssoc ((k₀, v₀) :: rest) k₀ = eraseAssoc rest k₀ by
            simp [eraseAssoc],
          ih]
      by_cases h₁ : k₀ = k'
      · simp [h₁]
      · simp [lookupAssoc, h₁]
    · by_cases h₁ : k₀ = k'
      · subst h₁
        have hkk : ¬(k = k₀) := fun hh => h₀ hh.symm
        simp [eraseAssoc, lookupAssoc, h₀, hkk]
      · simp [eraseAssoc, lookupAssoc, h₀, h₁, ih]

theorem lookupAssoc_erase_self (m : List (String × α)) (k : String) :
    lookupAssoc (eraseAssoc m k) k = none := by
  simp [lookupAssoc_erase]

theorem lookupAssoc_erase_ne (m : List (String × α)) {k k' : String}
    (h : k ≠ k') : lookupAssoc (eraseAssoc m k) k' = lookupAssoc m k' := by
  simp [lookupAssoc_erase, h]

theorem lookupAssoc_erase_sub (m : List (String × α)) {k k' : String}
    {v : α} (h : lookupAssoc (eraseAssoc m k) k' = some v) :
    lookupAssoc m k' = some v := by
  rw [lookupAssoc_erase] at h
  by_cases h₁ : k = k'
  · simp [h₁] at h
  · simpa [h₁] using h

theorem setAssoc_lookup_id {m : List (String × α)} {k : String} {v : α}
    (h : lookupAssoc m k = some v) : setAssoc m k v = m := by
  induction m with
  | nil => simp [lookupAssoc] at h
  | cons p rest ih =>
    obtain ⟨k₀, v₀⟩ := p
    by_cases h₀ : k₀ = k
    · subst h₀
      simp [lookupAssoc] at h
      simp [setAssoc, h]
    · simp [lookupAssoc, h₀] at h
      simp [setAssoc, h₀, ih h]

end AssocLemmas

section RoomLemmas

theorem mem_roomJoin {pairs : List (String × String)} {c r c' r' : String} :
    (c', r') ∈ roomJoin pairs c r ↔ (c', r') ∈ pairs ∨ (c' = c ∧ r' = r) := by
  unfold roomJoin
  by_cases h : (c, r) ∈ pairs
  · simp only [if_pos h]
    constructor
    · exact fun hm => Or.inl hm
    · rintro (hm | ⟨rfl, rfl⟩)
      · exact hm
      · exact h
  · simp only [if_neg h, List.mem_append, List.mem_singleton, Prod.mk.injEq]

theorem roomJoin_of_mem {pairs : List (String × String)} {c r : String}
    (h : (c, r) ∈ pairs) : roomJoin pairs c r = pairs := by
  simp [roomJoin, h]

theorem roomJoin_of_not_mem {pairs : List (String × String)} {c r : String}
    (h : (c, r) ∉ pairs) : roomJoin pairs c r = pairs ++ [(c, r)] := by
  simp [roomJoin, h]

theorem mem_roomLeave {pairs : List (String × String)} {c r c' r' : String} :
    (c', r') ∈ roomLeave pairs c r ↔ (c', r') ∈ pairs ∧ (c', r') ≠ (c, r) := by
  induction pairs with
  | nil => simp [roomLeave]
  | cons p rest ih =>
    by_cases hp : p = (c, r)
    · rw [roomLeave, if_pos hp, ih]
      constructor
      · rintro ⟨hm, hne⟩; exact ⟨List.mem_cons_of_mem _ hm, hne⟩
      · rintro ⟨hm, hne⟩
        rcases List.mem_cons.mp hm with h | h
        · exact absurd (h.trans hp) hne
        · exact ⟨h, hne⟩
    · rw [roomLeave, if_neg hp]
      constructor
      · intro hm
        rcases List.mem_cons.mp hm with h | h
        · refine ⟨?_, ?_⟩
          · rw [h]; exact List.mem_cons_self _ _
          · rw [h]; exact hp
        · rcases ih.mp h with ⟨hm2, hne⟩
          exact ⟨List.mem_cons_of_mem _ hm2, hne⟩
      · rintro ⟨hm, hne⟩
        rcases List.mem_cons.mp hm with h | h
        · rw [h]; exact List.mem_cons_self _ _
        · exact List.mem_cons_of_mem _ (ih.mpr ⟨h, hne⟩)

theorem mem_membersOf {pairs : List (String × String)} {c' r : String} :
    c' ∈ membersOf pairs r ↔ (c', r) ∈ pairs := by
  induction pairs with
  | nil => simp [membersOf]
  | cons p rest ih =>
    obtain ⟨a, b⟩ := p
    by_cases hb : b = r
    · subst hb
      rw [membersOf, if_pos rfl]
      simp only [List.mem_cons, ih, Prod.mk.injEq]
      tauto
    · rw [membersOf, if_neg hb, ih]
      simp only [List.mem_cons, Prod.mk.injEq]
      constructor
      · exact fun hm => Or.inr hm
      · rintro (⟨rfl, rfl⟩ | hm)
        · exact absurd rfl hb
        · exact hm

theorem membersOf_append_pair (l : List (String × String)) (c r : String) :
    membersOf (l ++ [(c, r)]) r = membersOf l r ++ [c] := by
  induction l with
  | nil => simp [membersOf]
  | cons p rest ih =>
    obtain ⟨a, b⟩ := p
    by_cases hb : b = r
    · simp [membersOf, hb, ih]
    · simp [membersOf, hb, ih]

theorem membersOf_roomLeave_ne {pairs : List (String × String)}
    {c q r : String} (h : q ≠ r) :
    membersOf (roomLeave pairs c q) r = membersOf pairs r := by
  induction pairs with
  | nil => rfl
  | cons p rest ih =>
    obtain ⟨a, b⟩ := p
    by_cases hp : (a, b) = (c, q)
    · have hb : ¬(b = r) := by
        have hbq : b = q := (Prod.mk.injEq .. ▸ hp).2
        rw [hbq]; exact h
      rw [roomLeave, if_pos hp, ih, membersOf, if_neg hb]
    · rw [roomLeave, if_neg hp]
      by_cases hb : b = r
      · rw [membersOf, if_pos hb, membersOf, if_pos hb, ih]
      · rw [membersOf, if_neg hb, membersOf, if_neg hb, ih]

theorem mem_roomPurge {pairs : List (String × String)} {c c' r' : String} :
    (c', r') ∈ roomPurge pairs c ↔ (c', r') ∈ pairs ∧ c' ≠ c := by
  induction pairs with
  | nil => simp [roomPurge]
  | cons p rest ih =>
    obtain ⟨a, b⟩ := p
    by_cases ha : a = c
    · rw [roomPurge, if_pos ha, ih]
      constructor
      · rintro ⟨hm, hne⟩; exact ⟨List.mem_cons_of_mem _ hm, hne⟩
      · rintro ⟨hm, hne⟩
        rcases List.mem_cons.mp hm with h | h
        · exact absurd ((Prod.mk.injEq .. ▸ h).1.trans ha) hne
        · exact ⟨h, hne⟩
    · rw [roomPurge, if_neg ha]
      constructor
      · intro hm
        rcases List.mem_cons.mp hm with h | h
        · have hc : c' = a := (Prod.mk.injEq .. ▸ h).1
          exact ⟨by rw [h]; exact List.mem_cons_self _ _, hc ▸ ha⟩
        · rcases ih.mp h with ⟨hm2, hne⟩
          exact ⟨List.mem_cons_of_mem _ hm2, hne⟩
      · rintro ⟨hm, hne⟩
        rcases List.mem_cons.mp hm with h | h
        · rw [h]; exact List.mem_cons_self _ _
        · exact List.mem_cons_of_mem _ (ih.mpr ⟨h, hne⟩)

theorem mem_removeAll {l : List String} {c x : String} :
    x ∈ removeAll l c ↔ x ∈ l ∧ x ≠ c := by
  induction l with
  | nil => simp [removeAll]
  | cons y rest ih =>
    by_cases hy : y = c
    · rw [removeAll, if_pos hy, ih]
      constructor
      · rintro ⟨hm, hne⟩; exact ⟨List.mem_cons_of_mem _ hm, hne⟩
      · rintro ⟨hm, hne⟩
        rcases List.mem_cons.mp hm with h | h
        · exact absurd (h.trans hy) hne
        · exact ⟨h, hne⟩
    · rw [removeAll, if_neg hy]
      constructor
      · intro hm
        rcases List.mem_cons.mp hm with h | h
        · exact ⟨by rw [h]; exact List.mem_cons_self _ _, h ▸ hy⟩
        · rcases ih.mp h with ⟨hm2, hne⟩
          exact ⟨List.mem_cons_of_mem _ hm2, hne⟩
      · rintro ⟨hm, hne⟩
        rcases List.mem_cons.mp hm with h | h
        · rw [h]; exact List.mem_cons_self _ _
        · exact List.mem_cons_of_mem _ (ih.mpr ⟨h, hne⟩)

end RoomLemmas

section PeerLemmas

theorem collectPeers_append_self (stu : List (String × String)) (c : String)
    (l : List String) : collectPeers stu c (l ++ [c]) = collectPeers stu c l := by
  induction l with
  | nil => simp [collectPeers]
  | cons s rest ih =>
    by_cases hs : s = c
    · simp [collectPeers, hs, ih]
    · cases hl : lookupAssoc stu s with
      | none => simp [collectPeers, hs, hl, ih]
      | some u =>
        by_cases hu : u = ""
        · simp [collectPeers, hs, hl, hu, ih]
        · simp [collectPeers, hs, hl, hu, ih]

theorem collectPeers_eq_filterMap (stu : List (String × String)) (c : String)
    (hne : ∀ s u, lookupAssoc stu s = some u → u ≠ "") (l : List String) :
    collectPeers stu c l =
      (l.filter (fun s => s ≠ c)).filterMap (fun s => lookupAssoc stu s) := by
  induction l with
  | nil => simp [collectPeers]
  | cons s rest ih =>
    by_cases hs : s = c
    · simp [collectPeers, hs, ih]
    · cases hl : lookupAssoc stu s with
      | none => simp [collectPeers, hs, hl, ih]
      | some u =>
        have hu : ¬(u = "") := hne s u hl
        simp [collectPeers, hs, hl, hu, ih]

end PeerLemmas

section HandlerShape

variable {st : GState} {c : String}

theorem drawStroke_state (st : GState) (c : String) (now pay : Nat) :
    (drawStroke st c now pay).1 =
      { st with strokeRateMap := (isStrokeRateLimited st.strokeRateMap c now).2 } := by
  unfold drawStroke
  dsimp only
  repeat' split
  all_goals rfl

theorem clearCanvas_state (st : GState) (c : String) (now pay : Nat) :
    (clearCanvas st c now pay).1 =
      { st with clearRateMap := (isClearRateLimited st.clearRateMap c now).2 } := by
  unfold clearCanvas
  dsimp only
  repeat' split
  all_goals rfl

theorem handleDisconnect_roomPairs (st : GState) (c : String) :
    (handleDisconnect st c).1.roomPairs = roomPurge st.roomPairs c := by
  unfold handleDisconnect
  dsimp only
  repeat' split
  all_goals rfl

theorem handleDisconnect_connected (st : GState) (c : String) :
    (handleDisconnect st c).1.connected = removeAll st.connected c := by
  unfold handleDisconnect
  dsimp only
  repeat' split
  all_goals rfl

theorem handleDisconnect_socketToUser (st : GState) (c : String) :
    (handleDisconnect st c).1.socketToUser =
      match lookupAssoc st.socketToUser c with
      | none => st.socketToUser
      | some _ => eraseAssoc st.socketToUser c := by
  unfold handleDisconnect
  dsimp only
  repeat' split
  all_goals simp_all

theorem handleDisconnect_socketToRoom (st : GState) (c : String) :
    (handleDisconnect st c).1.socketToRoom =
      match lookupAssoc st.socketToUser c with
      | none => st.socketToRoom
      | some _ =>
        match lookupAssoc st.socketToRoom c with
        | none => st.socketToRoom
        | some _ => eraseAssoc st.socketToRoom c := by
  unfold handleDisconnect
  dsimp only
  repeat' split
  all_goals simp_all

theorem handleDisconnect_strokeRateMap (st : GState) (c : String) :
    (handleDisconnect st c).1.strokeRateMap =
      match lookupAssoc st.socketToUser c with
      | none => st.strokeRateMap
      | some _ => eraseAssoc st.strokeRateMap c := by
  unfold handleDisconnect
  dsimp only
  repeat' split
  all_goals simp_all

theorem handleDisconnect_clearRateMap (st : GState) (c : String) :
    (handleDisconnect st c).1.clearRateMap =
      match lookupAssoc st.socketToUser c with
      | none => st.clearRateMap
      | some _ => eraseAssoc st.clearRateMap c := by
  unfold handleDisconnect
  dsimp only
  repeat' split
  all_goals simp_all

end HandlerShape

section InvariantPreservation

theorem stateInv_init : StateInv initState := by
  refine ⟨?_, ?_, ?_⟩
  · intro c r
    simp [initState, lookupAssoc]
  · intro c r h
    simp [initState, lookupAssoc] at h
  · intro c u h
    simp [initState, lookupAssoc] at h

theorem stateInv_handleConnection (v : String → Option String) (st : GState)
    (h : Handshake) (inv : StateInv st) :
    StateInv (handleConnection v st h).1 := by
  unfold handleConnection
  cases hx : extractUserIdFromToken v h with
  | none => exact inv
  | some u =>
    by_cases hu : u = ""
    · simp only [if_pos hu]
      exact inv
    · simp only [if_neg hu]
      refine ⟨inv.pairs_map, ?_, ?_⟩
      · intro c r hr
        by_cases hc : h.socketId = c
        · subst hc
          rw [lookupAssoc_set_self]
          simp
        · rw [lookupAssoc_set_ne _ _ hc]
          exact inv.room_user c r hr
      · intro c u' hu'
        by_cases hc : h.socketId = c
        · subst hc
          rw [lookupAssoc_set_self] at hu'
          obtain rfl := Option.some.inj hu'
          exact hu
        · rw [lookupAssoc_set_ne _ _ hc] at hu'
          exact inv.user_ne c u' hu'

/-- Core of the join-preservation argument: whatever the previous-room
branch produced as intermediate pairs, if it agrees with the old pairs
away from the joiner and admits only the target room for the joiner,
the joined state satisfies the invariant. -/
theorem stateInv_join_core (st : GState) (c roomId userId : String)
    (pairs1 : List (String × String)) (inv : StateInv st)
    (hstu : lookupAssoc st.socketToUser c = some userId)
    (h1 : ∀ c' r', c' ≠ c → ((c', r') ∈ pairs1 ↔ (c', r') ∈ st.roomPairs))
    (h2 : ∀ r', (c, r') ∈ pairs1 → r' = roomId) :
    StateInv { st with
      roomPairs := roomJoin pairs1 c roomId,
      socketToRoom := setAssoc st.socketToRoom c roomId } := by
  refine ⟨?_, ?_, ?_⟩
  · intro c' r'
    by_cases hc : c' = c
    · subst hc
      rw [lookupAssoc_set_self]
      constructor
      · intro hm
        rcases mem_roomJoin.mp hm with hm1 | ⟨_, rfl⟩
        · rw [h2 r' hm1]
        · rfl
      · intro hr
        obtain rfl := Option.some.inj hr
        exact mem_roomJoin.mpr (Or.inr ⟨rfl, rfl⟩)
    · rw [lookupAssoc_set_ne _ _ (fun hh => hc hh.symm)]
      constructor
      · intro hm
        rcases mem_roomJoin.mp hm with hm1 | ⟨hcc, _⟩
        · exact (inv.pairs_map c' r').mp ((h1 c' r' hc).mp hm1)
        · exact absurd hcc hc
      · intro hr
        exact mem_roomJoin.mpr
          (Or.inl ((h1 c' r' hc).mpr ((inv.pairs_map c' r').mpr hr)))
  · intro c' r' hr
    by_cases hc : c = c'
    · subst hc
      rw [hstu]
      simp
    · rw [lookupAssoc_set_ne _ _ hc] at hr
      exact inv.room_user c' r' hr
  · exact inv.user_ne

theorem stateInv_joinChat (r : String → String → Except (String × Nat) String)
    (st : GState) (c req : String) (inv : StateInv st) :
    StateInv (joinChat r st c req).1 := by
  unfold joinChat
  cases hstu : lookupAssoc st.socketToUser c with
  | none => exact inv
  | some userId =>
    dsimp only
    cases hres : r req userId with
    | error e => exact inv
    | ok roomId =>
      dsimp only
      cases hprev : lookupAssoc st.socketToRoom c with
      | none =>
        dsimp only
        refine stateInv_join_core st c roomId userId st.roomPairs inv hstu
          (fun c' r' _ => Iff.rfl) ?_
        intro r' hm
        have := (inv.pairs_map c r').mp hm
        rw [hprev] at this
        exact Option.noConfusion this
      | some p =>
        dsimp only
        by_cases hpr : p = roomId
        · subst hpr
          rw [if_neg (not_not_intro rfl)]
          dsimp only
          refine stateInv_join_core st c p userId st.roomPairs inv hstu
            (fun c' r' _ => Iff.rfl) ?_
          intro r' hm
          have := (inv.pairs_map c r').mp hm
          rw [hprev] at this
          exact (Option.some.inj this).symm
        · rw [if_pos hpr]
          dsimp only
          refine stateInv_join_core st c roomId userId
            (roomLeave st.roomPairs c p) inv hstu ?_ ?_
          · intro c' r' hc
            rw [mem_roomLeave]
            constructor
            · exact fun hh => hh.1
            · intro hh
              refine ⟨hh, fun heq => hc (Prod.mk.injEq .. ▸ heq).1⟩
          · intro r' hm
            rcases mem_roomLeave.mp hm with ⟨hmem, hne2⟩
            have := (inv.pairs_map c r').mp hmem
            rw [hprev] at this
            exact absurd (by rw [Option.some.inj this]) hne2

theorem stateInv_leaveChat (st : GState) (c : String) (inv : StateInv st) :
    StateInv (leaveChat st c).1 := by
  unfold leaveChat
  cases hroom : lookupAssoc st.socketToRoom c with
  | none => exact inv
  | some room =>
    refine ⟨?_, ?_, inv.user_ne⟩
    · intro c' r'
      by_cases hc : c' = c
      · subst hc
        rw [lookupAssoc_erase_self]
        constructor
        · intro hm
          rcases mem_roomLeave.mp hm with ⟨hmem, hne⟩
          have := (inv.pairs_map c' r').mp hmem
          rw [hroom] at this
          exact absurd (by rw [Option.some.inj this]) hne
        · intro hh
          exact absurd hh (by simp)
      · rw [lookupAssoc_erase_ne _ (fun hh => hc hh.symm)]
        rw [mem_roomLeave]
        constructor
        · rintro ⟨hmem, _⟩
          exact (inv.pairs_map c' r').mp hmem
        · intro hr
          exact ⟨(inv.pairs_map c' r').mpr hr,
            fun heq => hc (Prod.mk.injEq .. ▸ heq).1⟩
    · intro c' r' hr
      by_cases hc : c = c'
      · subst hc
        rw [lookupAssoc_erase_self] at hr
        exact absurd hr (by simp)
      · rw [lookupAssoc_erase_ne _ hc] at hr
        exact inv.room_user c' r' hr

theorem stateInv_drawStroke (st : GState) (c : String) (now pay : Nat)
    (inv : StateInv st) : StateInv (drawStroke st c now pay).1 := by
  rw [drawStroke_state]
  exact ⟨inv.pairs_map, inv.room_user, inv.user_ne⟩

theorem stateInv_clearCanvas (st : GState) (c : String) (now pay : Nat)
    (inv : StateInv st) : StateInv (clearCanvas st c now pay).1 := by
  rw [clearCanvas_state]
  exact ⟨inv.pairs_map, inv.room_user, inv.user_ne⟩

theorem stateInv_handleDisconnect (st : GState) (c : String)
    (inv : StateInv st) : StateInv (handleDisconnect st c).1 := by
  refine ⟨?_, ?_, ?_⟩
  · intro c' r'
    rw [handleDisconnect_roomPairs, handleDisconnect_socketToRoom]
    cases hstu : lookupAssoc st.socketToUser c with
    | none =>
      rw [mem_roomPurge]
      by_cases hc : c' = c
      · subst hc
        refine iff_of_false (fun hh => hh.2 rfl) (fun hr => ?_)
        exact inv.room_user c' r' hr hstu
      · constructor
        · rintro ⟨hm, _⟩
          exact (inv.pairs_map c' r').mp hm
        · intro hr
          exact ⟨(inv.pairs_map c' r').mpr hr, hc⟩
    | some userId =>
      cases hroom : lookupAssoc st.socketToRoom c with
      | none =>
        rw [mem_roomPurge]
        by_cases hc : c' = c
        · subst hc
          refine iff_of_false (fun hh => hh.2 rfl) (fun hr => ?_)
          rw [hroom] at hr
          exact Option.noConfusion hr
        · constructor
          · rintro ⟨hm, _⟩
            exact (inv.pairs_map c' r').mp hm
          · intro hr
            exact ⟨(inv.pairs_map c' r').mpr hr, hc⟩
      | some room =>
        rw [mem_roomPurge]
        by_cases hc : c' = c
        · subst hc
          rw [lookupAssoc_erase_self]
          exact iff_of_false (fun hh => hh.2 rfl) (by simp)
        · rw [lookupAssoc_erase_ne _ (fun hh => hc hh.symm)]
          constructor
          · rintro ⟨hm, _⟩
            exact (inv.pairs_map c' r').mp hm
          · intro hr
            exact ⟨(inv.pairs_map c' r').mpr hr, hc⟩
  · intro c' r' hr
    rw [handleDisconnect_socketToRoom] at hr
    rw [handleDisconnect_socketToUser]
    cases hstu : lookupAssoc st.socketToUser c with
    | none =>
      rw [hstu] at hr
      exact inv.room_user c' r' hr
    | some userId =>
      rw [hstu] at hr
      cases hroom : lookupAssoc st.socketToRoom c with
      | none =>
        rw [hroom] at hr
        by_cases hc : c = c'
        · subst hc
          rw [hr] at hroom
          exact Option.noConfusion hroom
        · rw [lookupAssoc_erase_ne _ hc]
          exact inv.room_user c' r' hr
      | some room =>
        rw [hroom] at hr
        by_cases hc : c = c'
        · subst hc
          rw [lookupAssoc_erase_self] at hr
          exact absurd hr (by simp)
        · rw [lookupAssoc_erase_ne _ hc] at hr
          rw [lookupAssoc_erase_ne _ hc]
          exact inv.room_user c' r' hr
  · intro c' u' hu'
    rw [handleDisconnect_socketToUser] at hu'
    cases hstu : lookupAssoc st.socketToUser c with
    | none =>
      rw [hstu] at hu'
      exact inv.user_ne c' u' hu'
    | some userId =>
      rw [hstu] at hu'
      exact inv.user_ne c' u' (lookupAssoc_erase_sub _ hu')

theorem stateInv_step (v : String → Option String)
    (r : String → String → Except (String × Nat) String)
    (st : GState) (op : Op) (inv : StateInv st) :
    StateInv (step v r st op).1 := by
  cases op with
  | connect h => exact stateInv_handleConnection v st h inv
  | join c req => exact stateInv_joinChat r st c req inv
  | leave c => exact stateInv_leaveChat st c inv
  | stroke c now pay => exact stateInv_drawStroke st c now pay inv
  | clear c now pay => exact stateInv_clearCanvas st c now pay inv
  | disconnect c => exact stateInv_handleDisconnect st c inv

theorem stateInv_runOps (v : String → Option String)
    (r : String → String → Except (String × Nat) String) :
    ∀ (ops : List Op) (st : GState), StateInv st →
      StateInv (runOps v r st ops)
  | [], _, inv => inv
  | op :: rest, st, inv =>
    stateInv_runOps v r rest (step v r st op).1 (stateInv_step v r st op inv)

theorem stateInv_reach (v : String → Option String)
    (r : String → String → Except (String × Nat) String) (ops : List Op) :
    StateInv (runOps v r initState ops) :=
  stateInv_runOps v r ops initState stateInv_init

end InvariantPreservation

section MoreHandlerShape

theorem joinChat_redisBinding
    (r : String → String → Except (String × Nat) String)
    (st : GState) (c req : String) :
    (joinChat r st c req).1.redisBinding = st.redisBinding := by
  unfold joinChat
  dsimp only
  repeat' split
  all_goals rfl

theorem joinChat_connected
    (r : String → String → Except (String × Nat) String)
    (st : GState) (c req : String) :
    (joinChat r st c req).1.connected = st.connected := by
  unfold joinChat
  dsimp only
  repeat' split
  all_goals rfl

theorem joinChat_socketToUser
    (r : String → String → Except (String × Nat) String)
    (st : GState) (c req : String) :
    (joinChat r st c req).1.socketToUser = st.socketToUser := by
  unfold joinChat
  dsimp only
  repeat' split
  all_goals rfl

theorem joinChat_strokeRateMap
    (r : String → String → Except (String × Nat) String)
    (st : GState) (c req : String) :
    (joinChat r st c req).1.strokeRateMap = st.strokeRateMap := by
  unfold joinChat
  dsimp only
  repeat' split
  all_goals rfl

theorem joinChat_clearRateMap
    (r : String → String → Except (String × Nat) String)
    (st : GState) (c req : String) :
    (joinChat r st c req).1.clearRateMap = st.clearRateMap := by
  unfold joinChat
  dsimp only
  repeat' split
  all_goals rfl

theorem leaveChat_redisBinding (st : GState) (c : String) :
    (leaveChat st c).1.redisBinding = st.redisBinding := by
  unfold leaveChat
  dsimp only
  repeat' split
  all_goals rfl

theorem leaveChat_connected (st : GState) (c : String) :
    (leaveChat st c).1.connected = st.connected := by
  unfold leaveChat
  dsimp only
  repeat' split
  all_goals rfl

theorem leaveChat_socketToUser (st : GState) (c : String) :
    (leaveChat st c).1.socketToUser = st.socketToUser := by
  unfold leaveChat
  dsimp only
  repeat' split
  all_goals rfl

theorem leaveChat_strokeRateMap (st : GState) (c : String) :
    (leaveChat st c).1.strokeRateMap = st.strokeRateMap := by
  unfold leaveChat
  dsimp only
  repeat' split
  all_goals rfl

theorem leaveChat_clearRateMap (st : GState) (c : String) :
    (leaveChat st c).1.clearRateMap = st.clearRateMap := by
  unfold leaveChat
  dsimp only
  repeat' split
  all_goals rfl

theorem handleDisconnect_redisBinding (st : GState) (c : String) :
    (handleDisconnect st c).1.redisBinding =
      match lookupAssoc st.socketToUser c with
      | none => st.redisBinding
      | some userId =>
        match lookupAssoc st.redisBinding userId with
        | some cur =>
          if cur = c then eraseAssoc st.redisBinding userId
          else st.redisBinding
        | none => st.redisBinding := by
  unfold handleDisconnect
  dsimp only
  repeat' split
  all_goals simp_all

theorem rateCheck_snd (limit window : Nat) (m : List (String × RateEntry))
    (c : String) (now : Nat) :
    ∃ e, (rateCheck limit window m c now).2 = setAssoc m c e := by
  unfold rateCheck
  dsimp only
  split
  · exact ⟨_, rfl⟩
  · exact ⟨_, rfl⟩

theorem rateCheck_fresh (limit window : Nat) {m : List (String × RateEntry)}
    {c : String} (now : Nat) (hm : lookupAssoc m c = none) (hw : 0 < window) :
    rateCheck limit window m c now =
      (decide (limit < 1), setAssoc m c ⟨1, now⟩) := by
  unfold rateCheck
  rw [hm]
  dsimp only [Option.getD]
  rw [if_neg (by simpa [Nat.sub_self] using Nat.not_le.mpr hw)]

theorem rateCheck_bump (limit window : Nat) {m : List (String × RateEntry)}
    {c : String} {k t0 : Nat} (now : Nat)
    (hm : lookupAssoc m c = some ⟨k, t0⟩) (hw : now - t0 < window) :
    rateCheck limit window m c now =
      (decide (limit < k + 1), setAssoc m c ⟨k + 1, t0⟩) := by
  unfold rateCheck
  rw [hm]
  dsimp only [Option.getD]
  rw [if_neg (Nat.not_le.mpr hw)]

end MoreHandlerShape

section RatePreservation

theorem rateInv_init : RateInv initState := by
  refine ⟨?_, ?_, ?_⟩ <;> intro c h <;> simp [initState, lookupAssoc] at h

theorem wfOp_mem {st : GState} {c : String} (h : st.connected.contains c = true) :
    c ∈ st.connected := by
  simpa using h

theorem rateInv_step (v : String → Option String)
    (r : String → String → Except (String × Nat) String)
    (st : GState) (op : Op) (inv : RateInv st) (hwf : wfOp st op = true) :
    RateInv (step v r st op).1 := by
  cases op with
  | connect h =>
    show RateInv (handleConnection v st h).1
    unfold handleConnection
    cases hx : extractUserIdFromToken v h with
    | none => exact inv
    | some u =>
      by_cases hu : u = ""
      · simp only [if_pos hu]
        exact inv
      · simp only [if_neg hu]
        refine ⟨?_, ?_, ?_⟩
        · intro c hc
          exact List.mem_cons_of_mem _ (inv.stroke_conn c hc)
        · intro c hc
          exact List.mem_cons_of_mem _ (inv.clear_conn c hc)
        · intro c hc
          by_cases hcs : h.socketId = c
          · subst hcs
            rw [lookupAssoc_set_self]
            simp
          · rw [lookupAssoc_set_ne _ _ hcs]
            rcases List.mem_cons.mp hc with h1 | h1
            · exact absurd h1.symm hcs
            · exact inv.conn_user c h1
  | join c req =>
    show RateInv (joinChat r st c req).1
    refine ⟨?_, ?_, ?_⟩
    · intro c' hc'
      rw [joinChat_strokeRateMap] at hc'
      rw [joinChat_connected]
      exact inv.stroke_conn c' hc'
    · intro c' hc'
      rw [joinChat_clearRateMap] at hc'
      rw [joinChat_connected]
      exact inv.clear_conn c' hc'
    · intro c' hc'
      rw [joinChat_connected] at hc'
      rw [joinChat_socketToUser]
      exact inv.conn_user c' hc'
  | leave c =>
    show RateInv (leaveChat st c).1
    refine ⟨?_, ?_, ?_⟩
    · intro c' hc'
      rw [leaveChat_strokeRateMap] at hc'
      rw [leaveChat_connected]
      exact inv.stroke_conn c' hc'
    · intro c' hc'
      rw [leaveChat_clearRateMap] at hc'
      rw [leaveChat_connected]
      exact inv.clear_conn c' hc'
    · intro c' hc'
      rw [leaveChat_connected] at hc'
      rw [leaveChat_socketToUser]
      exact inv.conn_user c' hc'
  | stroke c now pay =>
    have hc : c ∈ st.connected := wfOp_mem hwf
    show RateInv (drawStroke st c now pay).1
    rw [drawStroke_state]
    obtain ⟨e, he⟩ := rateCheck_snd STROKE_RATE_LIMIT STROKE_RATE_WINDOW_MS
      st.strokeRateMap c now
    refine ⟨?_, inv.clear_conn, inv.conn_user⟩
    intro c' hc'
    rw [show isStrokeRateLimited st.strokeRateMap c now =
      rateCheck STROKE_RATE_LIMIT STROKE_RATE_WINDOW_MS st.strokeRateMap c now
      from rfl, he] at hc'
    by_cases hcc : c = c'
    · exact hcc ▸ hc
    · rw [lookupAssoc_set_ne _ _ hcc] at hc'
      exact inv.stroke_conn c' hc'
  | clear c now pay =>
    have hc : c ∈ st.connected := wfOp_mem hwf
    show RateInv (clearCanvas st c now pay).1
    rw [clearCanvas_state]
    obtain ⟨e, he⟩ := rateCheck_snd CLEAR_RATE_LIMIT CLEAR_RATE_WINDOW_MS
      st.clearRateMap c now
    refine ⟨inv.stroke_conn, ?_, inv.conn_user⟩
    intro c' hc'
    rw [show isClearRateLimited st.clearRateMap c now =
      rateCheck CLEAR_RATE_LIMIT CLEAR_RATE_WINDOW_MS st.clearRateMap c now
      from rfl, he] at hc'
    by_cases hcc : c = c'
    · exact hcc ▸ hc
    · rw [lookupAssoc_set_ne _ _ hcc] at hc'
      exact inv.clear_conn c' hc'
  | disconnect c =>
    have hc : c ∈ st.connected := wfOp_mem hwf
    show RateInv (handleDisconnect st c).1
    cases hstu : lookupAssoc st.socketToUser c with
    | none => exact absurd hstu (inv.conn_user c hc)
    | some userId =>
      refine ⟨?_, ?_, ?_⟩
      · intro c' hc'
        rw [handleDisconnect_strokeRateMap, hstu] at hc'
        rw [handleDisconnect_connected]
        by_cases hcc : c = c'
        · rw [hcc, lookupAssoc_erase_self] at hc'
          exact absurd rfl hc'
        · rw [lookupAssoc_erase_ne _ hcc] at hc'
          exact mem_removeAll.mpr ⟨inv.stroke_conn c' hc', fun hh => hcc hh.symm⟩
      · intro c' hc'
        rw [handleDisconnect_clearRateMap, hstu] at hc'
        rw [handleDisconnect_connected]
        by_cases hcc : c = c'
        · rw [hcc, lookupAssoc_erase_self] at hc'
          exact absurd rfl hc'
        · rw [lookupAssoc_erase_ne _ hcc] at hc'
          exact mem_removeAll.mpr ⟨inv.clear_conn c' hc', fun hh => hcc hh.symm⟩
      · intro c' hc'
        rw [handleDisconnect_connected] at hc'
        rcases mem_removeAll.mp hc' with ⟨hmem, hne⟩
        rw [handleDisconnect_socketToUser, hstu,
          lookupAssoc_erase_ne _ (fun hh => hne hh.symm)]
        exact inv.conn_user c' hmem

theorem rateInv_runOps (v : String → Option String)
    (r : String → String → Except (String × Nat) String) :
    ∀ (ops : List Op) (st : GState), RateInv st →
      wfOps v r st ops = true → RateInv (runOps v r st ops)
  | [], _, inv, _ => inv
  | op :: rest, st, inv, hwf => by
    rcases Bool.and_eq_true_iff.mp (by simpa [wfOps] using hwf) with ⟨h1, h2⟩
    exact rateInv_runOps v r rest (step v r st op).1
      (rateInv_step v r st op inv h1) h2

theorem rateInv_reach (v : String → Option String)
    (r : String → String → Except (String × Nat) String) (ops : List Op)
    (hwf : wfOps v r initState ops = true) :
    RateInv (runOps v r initState ops) :=
  rateInv_runOps v r ops initState rateInv_init hwf

end RatePreservation

section BindingInvariant

theorem runOps_append (v : String → Option String)
    (r : String → String → Except (String × Nat) String)
    (st : GState) (ops : List Op) (op : Op) :
    runOps v r st (ops ++ [op]) = (step v r (runOps v r st ops) op).1 := by
  simp [runOps, List.foldl_append]

theorem lastConnect_append_connect (v : String → Option String)
    (ops : List Op) (h : Handshake) (u : String) :
    lastConnect v (ops ++ [Op.connect h]) u =
      if authUser v h = some u then some h.socketId
      else lastConnect v ops u := by
  simp [lastConnect, List.foldl_append]

theorem lastConnect_append_other (v : String → Option String)
    (ops : List Op) (op : Op) (u : String)
    (hop : ∀ h, op ≠ Op.connect h) :
    lastConnect v (ops ++ [op]) u = lastConnect v ops u := by
  cases op with
  | connect h => exact absurd rfl (hop h)
  | join c req => simp [lastConnect, List.foldl_append]
  | leave c => simp [lastConnect, List.foldl_append]
  | stroke c now pay => simp [lastConnect, List.foldl_append]
  | clear c now pay => simp [lastConnect, List.foldl_append]
  | disconnect c => simp [lastConnect, List.foldl_append]

theorem handleConnection_reject (v : String → Option String) (st : GState)
    (h : Handshake) (hA : authUser v h = none) :
    handleConnection v st h =
      (st, [.toClient h.socketId (.errorMsg "Unauthorized" none),
            .forceClose h.socketId]) := by
  unfold handleConnection
  unfold authUser at hA
  cases hx : extractUserIdFromToken v h with
  | none => rfl
  | some u =>
    rw [hx] at hA
    dsimp only at hA ⊢
    by_cases hu : u = ""
    · rw [if_pos hu]
    · rw [if_neg hu] at hA
      exact Option.noConfusion hA

theorem handleConnection_accept (v : String → Option String) (st : GState)
    (h : Handshake) (u : String) (hA : authUser v h = some u) :
    handleConnection v st h =
      ({ st with
          connected := h.socketId :: st.connected,
          socketToUser := setAssoc st.socketToUser h.socketId u,
          redisBinding := setAssoc st.redisBinding u h.socketId }, []) := by
  unfold handleConnection
  unfold authUser at hA
  cases hx : extractUserIdFromToken v h with
  | none =>
    rw [hx] at hA
    dsimp only at hA
    exact Option.noConfusion hA
  | some u' =>
    rw [hx] at hA
    dsimp only at hA ⊢
    by_cases hu : u' = ""
    · rw [if_pos hu] at hA
      exact Option.noConfusion hA
    · rw [if_neg hu] at hA
      obtain rfl := Option.some.inj hA
      rw [if_neg hu]

/-- The Redis user→socket hash, after any trace, can only name the
socket of that user's most recent successful connect: the
unconditional `hset` on connect plus the compare-and-delete `hdel` on
disconnect never leave a stale binding behind. -/
theorem binding_lastConnect (v : String → Option String)
    (r : String → String → Except (String × Nat) String) :
    ∀ (ops : List Op) (u cc : String),
      lookupAssoc (runOps v r initState ops).redisBinding u = some cc →
      lastConnect v ops u = some cc := by
  intro ops
  induction ops using List.reverseRecOn with
  | nil =>
    intro u cc h
    simp [runOps, initState, lookupAssoc] at h
  | append_singleton ops op ih =>
    intro u cc h
    rw [runOps_append] at h
    cases op with
    | connect hh =>
      rw [lastConnect_append_connect]
      simp only [step] at h
      cases hA : authUser v hh with
      | none =>
        rw [handleConnection_reject v _ hh hA] at h
        rw [if_neg (fun hhh => Option.noConfusion hhh)]
        exact ih u cc h
      | some u0 =>
        rw [handleConnection_accept v _ hh u0 hA] at h
        dsimp only at h
        by_cases hu : u0 = u
        · subst hu
          rw [lookupAssoc_set_self] at h
          rw [if_pos rfl]
          exact h
        · rw [lookupAssoc_set_ne _ _ hu] at h
          rw [if_neg (fun hhh => hu (Option.some.inj hhh))]
          exact ih u cc h
    | join c req =>
      simp only [step] at h
      rw [joinChat_redisBinding] at h
      rw [lastConnect_append_other v ops _ u (by intro hh; exact Op.noConfusion)]
      exact ih u cc h
    | leave c =>
      simp only [step] at h
      rw [leaveChat_redisBinding] at h
      rw [lastConnect_append_other v ops _ u (by intro hh; exact Op.noConfusion)]
      exact ih u cc h
    | stroke c now pay =>
      simp only [step] at h
      rw [show (drawStroke (runOps v r initState ops) c now pay).1.redisBinding =
        (runOps v r initState ops).redisBinding by rw [drawStroke_state]] at h
      rw [lastConnect_append_other v ops _ u (by intro hh; exact Op.noConfusion)]
      exact ih u cc h
    | clear c now pay =>
      simp only [step] at h
      rw [show (clearCanvas (runOps v r initState ops) c now pay).1.redisBinding =
        (runOps v r initState ops).redisBinding by rw [clearCanvas_state]] at h
      rw [lastConnect_append_other v ops _ u (by intro hh; exact Op.noConfusion)]
      exact ih u cc h
    | disconnect c =>
      simp only [step] at h
      rw [handleDisconnect_redisBinding] at h
      rw [lastConnect_append_other v ops _ u (by intro hh; exact Op.noConfusion)]
      refine ih u cc ?_
      rcases hstu : lookupAssoc (runOps v r initState ops).socketToUser c with _ | userId
      · rw [hstu] at h
        exact h
      · rw [hstu] at h
        dsimp only at h
        rcases hbind : lookupAssoc (runOps v r initState ops).redisBinding userId
          with _ | cur
        · rw [hbind] at h
          exact h
        · rw [hbind] at h
          dsimp only at h
          by_cases hcur : cur = c
          · rw [if_pos hcur] at h
            exact lookupAssoc_erase_sub _ h
          · rw [if_neg hcur] at h
            exact h

end BindingInvariant

section RateBursts

theorem drawStroke_step_bump (st : GState) (c R : String) (now pay j t0 : Nat)
    (hroom : lookupAssoc st.socketToRoom c = some R)
    (hrate : lookupAssoc st.strokeRateMap c = some ⟨j, t0⟩)
    (hw : now - t0 < STROKE_RATE_WINDOW_MS) :
    drawStroke st c now pay =
      ({ st with strokeRateMap := setAssoc st.strokeRateMap c ⟨j + 1, t0⟩ },
       if j + 1 ≤ STROKE_RATE_LIMIT
         then [Emission.toRoomExcept R c (.strokeData pay)] else []) := by
  have hbump := rateCheck_bump STROKE_RATE_LIMIT STROKE_RATE_WINDOW_MS now hrate hw
  unfold drawStroke
  rw [show isStrokeRateLimited st.strokeRateMap c now =
    (decide (STROKE_RATE_LIMIT < j + 1),
     setAssoc st.strokeRateMap c ⟨j + 1, t0⟩) from hbump]
  dsimp only
  by_cases hle : STROKE_RATE_LIMIT < j + 1
  · rw [if_pos (decide_eq_true hle), if_neg (by omega)]
  · rw [if_neg (by simpa using hle), hroom, if_pos (by omega)]

theorem drawStroke_step_fresh (st : GState) (c R : String) (t0 pay : Nat)
    (hroom : lookupAssoc st.socketToRoom c = some R)
    (hfresh : lookupAssoc st.strokeRateMap c = none) :
    drawStroke st c t0 pay =
      ({ st with strokeRateMap := setAssoc st.strokeRateMap c ⟨1, t0⟩ },
       [Emission.toRoomExcept R c (.strokeData pay)]) := by
  have hfr := rateCheck_fresh STROKE_RATE_LIMIT STROKE_RATE_WINDOW_MS t0 hfresh
    (by decide)
  unfold drawStroke
  rw [show isStrokeRateLimited st.strokeRateMap c t0 =
    (decide (STROKE_RATE_LIMIT < 1), setAssoc st.strokeRateMap c ⟨1, t0⟩)
    from hfr]
  dsimp only
  rw [if_neg (by decide), hroom]

theorem clearCanvas_step_bump (st : GState) (c R : String) (now pay j t0 : Nat)
    (hroom : lookupAssoc st.socketToRoom c = some R)
    (hrate : lookupAssoc st.clearRateMap c = some ⟨j, t0⟩)
    (hw : now - t0 < CLEAR_RATE_WINDOW_MS) :
    clearCanvas st c now pay =
      ({ st with clearRateMap := setAssoc st.clearRateMap c ⟨j + 1, t0⟩ },
       if j + 1 ≤ CLEAR_RATE_LIMIT
         then [Emission.toRoomExcept R c (.clearData pay)]
         else [Emission.toClient c
           (.errorMsg "Too many clear events. Max 5 per 5s." (some 403))]) := by
  have hbump := rateCheck_bump CLEAR_RATE_LIMIT CLEAR_RATE_WINDOW_MS now hrate hw
  unfold clearCanvas
  rw [show isClearRateLimited st.clearRateMap c now =
    (decide (CLEAR_RATE_LIMIT < j + 1),
     setAssoc st.clearRateMap c ⟨j + 1, t0⟩) from hbump]
  dsimp only
  by_cases hle : CLEAR_RATE_LIMIT < j + 1
  · rw [if_pos (decide_eq_true hle), if_neg (by omega)]
  · rw [if_neg (by simpa using hle), hroom, if_pos (by omega)]

theorem clearCanvas_step_fresh (st : GState) (c R : String) (t0 pay : Nat)
    (hroom : lookupAssoc st.socketToRoom c = some R)
    (hfresh : lookupAssoc st.clearRateMap c = none) :
    clearCanvas st c t0 pay =
      ({ st with clearRateMap := setAssoc st.clearRateMap c ⟨1, t0⟩ },
       [Emission.toRoomExcept R c (.clearData pay)]) := by
  have hfr := rateCheck_fresh CLEAR_RATE_LIMIT CLEAR_RATE_WINDOW_MS t0 hfresh
    (by decide)
  unfold clearCanvas
  rw [show isClearRateLimited st.clearRateMap c t0 =
    (decide (CLEAR_RATE_LIMIT < 1), setAssoc st.clearRateMap c ⟨1, t0⟩)
    from hfr]
  dsimp only
  rw [if_neg (by decide), hroom]

theorem strokeSeq_bump (c R : String) :
    ∀ (ts : List Nat) (st : GState) (j t0 : Nat),
      lookupAssoc st.socketToRoom c = some R →
      lookupAssoc st.strokeRateMap c = some ⟨j, t0⟩ →
      (∀ t ∈ ts, t - t0 < STROKE_RATE_WINDOW_MS) →
      strokeSeq st c ts = (List.range ts.length).map
        (fun i => if j + i + 1 ≤ STROKE_RATE_LIMIT
          then [Emission.toRoomExcept R c (.strokeData 0)] else [])
  | [], _, _, _, _, _, _ => rfl
  | t :: rest, st, j, t0, hroom, hrate, hwin => by
    have htail := strokeSeq_bump c R rest
      { st with strokeRateMap := setAssoc st.strokeRateMap c ⟨j + 1, t0⟩ }
      (j + 1) t0 hroom (lookupAssoc_set_self _ _ _)
      (fun t' ht' => hwin t' (List.mem_cons_of_mem _ ht'))
    rw [show strokeSeq st c (t :: rest) =
      (drawStroke st c t 0).2 :: strokeSeq (drawStroke st c t 0).1 c rest
      from rfl]
    rw [drawStroke_step_bump st c R t 0 j t0 hroom hrate
      (hwin t (List.mem_cons_self _ _))]
    dsimp only
    rw [htail]
    rw [List.length_cons, List.range_succ_eq_map, List.map_cons, List.map_map]
    congr 1
    apply List.map_congr_left
    intro i _
    have harith : j + 1 + i + 1 = j + (i + 1) + 1 := by omega
    simp only [Function.comp_apply, harith]

theorem clearSeq_bump (c R : String) :
    ∀ (ts : List Nat) (st : GState) (j t0 : Nat),
      lookupAssoc st.socketToRoom c = some R →
      lookupAssoc st.clearRateMap c = some ⟨j, t0⟩ →
      (∀ t ∈ ts, t - t0 < CLEAR_RATE_WINDOW_MS) →
      clearSeq st c ts = (List.range ts.length).map
        (fun i => if j + i + 1 ≤ CLEAR_RATE_LIMIT
          then [Emission.toRoomExcept R c (.clearData 0)]
          else [Emission.toClient c
            (.errorMsg "Too many clear events. Max 5 per 5s." (some 403))])
  | [], _, _, _, _, _, _ => rfl
  | t :: rest, st, j, t0, hroom, hrate, hwin => by
    have htail := clearSeq_bump c R rest
      { st with clearRateMap := setAssoc st.clearRateMap c ⟨j + 1, t0⟩ }
      (j + 1) t0 hroom (lookupAssoc_set_self _ _ _)
      (fun t' ht' => hwin t' (List.mem_cons_of_mem _ ht'))
    rw [show clearSeq st c (t :: rest) =
      (clearCanvas st c t 0).2 :: clearSeq (clearCanvas st c t 0).1 c rest
      from rfl]
    rw [clearCanvas_step_bump st c R t 0 j t0 hroom hrate
      (hwin t (List.mem_cons_self _ _))]
    dsimp only
    rw [htail]
    rw [List.length_cons, List.range_succ_eq_map, List.map_cons, List.map_map]
    congr 1
    apply List.map_congr_left
    intro i _
    have harith : j + 1 + i + 1 = j + (i + 1) + 1 := by omega
    simp only [Function.comp_apply, harith]

theorem stroke_window_form (st : GState) (c R : String) (t0 : Nat)
    (rest : List Nat)
    (hroom : lookupAssoc st.socketToRoom c = some R)
    (hfresh : lookupAssoc st.strokeRateMap c = none)
    (hwin : ∀ t ∈ rest, t - t0 < STROKE_RATE_WINDOW_MS) :
    strokeSeq st c (t0 :: rest) = (List.range (rest.length + 1)).map
      (fun i => if i < STROKE_RATE_LIMIT
        then [Emission.toRoomExcept R c (.strokeData 0)] else []) := by
  have htail := strokeSeq_bump c R rest
    { st with strokeRateMap := setAssoc st.strokeRateMap c ⟨1, t0⟩ }
    1 t0 hroom (lookupAssoc_set_self _ _ _) hwin
  rw [show strokeSeq st c (t0 :: rest) =
    (drawStroke st c t0 0).2 :: strokeSeq (drawStroke st c t0 0).1 c rest
    from rfl]
  rw [drawStroke_step_fresh st c R t0 0 hroom hfresh]
  dsimp only
  rw [htail, List.range_succ_eq_map, List.map_cons, List.map_map]
  congr 1
  apply List.map_congr_left
  intro i _
  simp only [Function.comp_apply]
  exact if_congr (by omega) rfl rfl

theorem clear_window_form (st : GState) (c R : String) (t0 : Nat)
    (rest : List Nat)
    (hroom : lookupAssoc st.socketToRoom c = some R)
    (hfresh : lookupAssoc st.clearRateMap c = none)
    (hwin : ∀ t ∈ rest, t - t0 < CLEAR_RATE_WINDOW_MS) :
    clearSeq st c (t0 :: rest) = (List.range (rest.length + 1)).map
      (fun i => if i < CLEAR_RATE_LIMIT
        then [Emission.toRoomExcept R c (.clearData 0)]
        else [Emission.toClient c
          (.errorMsg "Too many clear events. Max 5 per 5s." (some 403))]) := by
  have htail := clearSeq_bump c R rest
    { st with clearRateMap := setAssoc st.clearRateMap c ⟨1, t0⟩ }
    1 t0 hroom (lookupAssoc_set_self _ _ _) hwin
  rw [show clearSeq st c (t0 :: rest) =
    (clearCanvas st c t0 0).2 :: clearSeq (clearCanvas st c t0 0).1 c rest
    from rfl]
  rw [clearCanvas_step_fresh st c R t0 0 hroom hfresh]
  dsimp only
  rw [htail, List.range_succ_eq_map, List.map_cons, List.map_map]
  congr 1
  apply List.map_congr_left
  intro i _
  simp only [Function.comp_apply]
  exact if_congr (by omega) rfl rfl

end RateBursts

section NoRoomShapes

theorem drawStroke_limited_out (st : GState) (c : String) (now pay : Nat)
    (h1 : (isStrokeRateLimited st.strokeRateMap c now).1 = true) :
    (drawStroke st c now pay).2 = [] := by
  unfold drawStroke
  dsimp only
  rw [if_pos h1]

theorem drawStroke_noroom_out (st : GState) (c : String) (now pay : Nat)
    (h1 : (isStrokeRateLimited st.strokeRateMap c now).1 = false)
    (h2 : lookupAssoc st.socketToRoom c = none) :
    (drawStroke st c now pay).2 =
      [.toClient c (.errorMsg "Not in a room" (some 403))] := by
  unfold drawStroke
  dsimp only
  rw [if_neg (by rw [h1]; exact Bool.false_ne_true), h2]

theorem clearCanvas_limited_out (st : GState) (c : String) (now pay : Nat)
    (h1 : (isClearRateLimited st.clearRateMap c now).1 = true) :
    (clearCanvas st c now pay).2 =
      [.toClient c (.errorMsg "Too many clear events. Max 5 per 5s." (some 403))] := by
  unfold clearCanvas
  dsimp only
  rw [if_pos h1]

theorem clearCanvas_noroom_out (st : GState) (c : String) (now pay : Nat)
    (h1 : (isClearRateLimited st.clearRateMap c now).1 = false)
    (h2 : lookupAssoc st.socketToRoom c = none) :
    (clearCanvas st c now pay).2 =
      [.toClient c (.errorMsg "Not in a room" (some 403))] := by
  unfold clearCanvas
  dsimp only
  rw [if_neg (by rw [h1]; exact Bool.false_ne_true), h2]

end NoRoomShapes

section BearerLemmas

theorem replaceFirstCh_cancel (pat l : List Char) :
    replaceFirstCh pat (pat ++ l) = l := by
  cases pat with
  | nil =>
    cases l with
    | nil => rfl
    | cons c rest =>
      rw [List.nil_append, replaceFirstCh]
      rw [if_pos (by rw [List.isPrefixOf_iff_prefix]; exact List.nil_prefix)]
      rfl
  | cons c p' =>
    rw [List.cons_append, replaceFirstCh]
    rw [if_pos (by
      rw [List.isPrefixOf_iff_prefix, ← List.cons_append]
      exact List.prefix_append _ _)]
    rw [← List.cons_append, List.drop_left]

theorem bearerStrip_cancel (rest : String) :
    bearerStrip ("Bearer " ++ rest) = rest := by
  unfold bearerStrip
  rw [show ("Bearer " ++ rest).toList = "Bearer ".toList ++ rest.toList by
    simp [String.toList]]
  rw [replaceFirstCh_cancel]
  cases rest with
  | mk d => rfl

end BearerLemmas

section JoinOutput

/-- Any `chat.joined` confirmation emitted by the join handler carries,
as its peer list, exactly the identities of the sockets other than the
joiner that were in the target room before the join. -/
theorem joinChat_peers_spec
    (r : String → String → Except (String × Nat) String)
    (st : GState) (c req R req' : String) (ps : List String)
    (inv : StateInv st)
    (hmem : Emission.toClient c (.chatJoined R req' ps) ∈
      (joinChat r st c req).2) :
    ps = ((membersOf st.roomPairs R).filter (fun s => s ≠ c)).filterMap
      (fun s => lookupAssoc st.socketToUser s) := by
  unfold joinChat at hmem
  cases hstu : lookupAssoc st.socketToUser c with
  | none =>
    rw [hstu] at hmem
    simp at hmem
  | some userId =>
    rw [hstu] at hmem
    dsimp only at hmem
    cases hres : r req userId with
    | error e =>
      rw [hres] at hmem
      simp at hmem
    | ok roomId =>
      rw [hres] at hmem
      dsimp only at hmem
      cases hprev : lookupAssoc st.socketToRoom c with
      | none =>
        rw [hprev] at hmem
        dsimp only at hmem
        simp at hmem
        obtain ⟨rfl, rfl, rfl⟩ := hmem
        have hnm : (c, R) ∉ st.roomPairs := by
          intro hm2
          have := (inv.pairs_map c R).mp hm2
          rw [hprev] at this
          exact Option.noConfusion this
        rw [roomJoin_of_not_mem hnm, membersOf_append_pair,
          collectPeers_append_self, collectPeers_eq_filterMap _ _ inv.user_ne]
      | some p =>
        rw [hprev] at hmem
        dsimp only at hmem
        by_cases hpr : p = roomId
        · subst hpr
          rw [if_neg (not_not_intro rfl)] at hmem
          dsimp only at hmem
          simp at hmem
          obtain ⟨rfl, rfl, rfl⟩ := hmem
          have hm2 : (c, R) ∈ st.roomPairs := (inv.pairs_map c R).mpr hprev
          rw [roomJoin_of_mem hm2, collectPeers_eq_filterMap _ _ inv.user_ne]
        · rw [if_pos hpr] at hmem
          dsimp only at hmem
          simp at hmem
          obtain ⟨rfl, rfl, rfl⟩ := hmem
          have hnm : (c, R) ∉ roomLeave st.roomPairs c p := by
            intro hm2
            rcases mem_roomLeave.mp hm2 with ⟨hmem2, _⟩
            have := (inv.pairs_map c R).mp hmem2
            rw [hprev] at this
            exact hpr (Option.some.inj this)
          rw [roomJoin_of_not_mem hnm, membersOf_append_pair,
            collectPeers_append_self, membersOf_roomLeave_ne hpr,
            collectPeers_eq_filterMap _ _ inv.user_ne]

/-- A join that resolves to the room the socket is already in leaves
the whole state untouched and re-emits the confirmation pair: a second
`chat.joined` to the joiner (peers = the other current members) and a
duplicate `draw.peer.joined` broadcast, with no `draw.peer.left`. -/
theorem joinChat_rejoin_spec
    (r : String → String → Except (String × Nat) String)
    (st : GState) (c req R u : String) (inv : StateInv st)
    (hstu : lookupAssoc st.socketToUser c = some u)
    (hroom : lookupAssoc st.socketToRoom c = some R)
    (hres : r req u = Except.ok R) :
    joinChat r st c req =
      (st, [Emission.toClient c (.chatJoined R req
          (((membersOf st.roomPairs R).filter (fun s => s ≠ c)).filterMap
            (fun s => lookupAssoc st.socketToUser s))),
        Emission.toRoomExcept R c (.peerJoined u)]) := by
  unfold joinChat
  rw [hstu]
  dsimp only
  rw [hres]
  dsimp only
  rw [hroom]
  dsimp only
  rw [if_neg (not_not_intro rfl)]
  dsimp only
  rw [roomJoin_of_mem ((inv.pairs_map c R).mpr hroom)]
  rw [setAssoc_lookup_id hroom]
  rw [collectPeers_eq_filterMap _ _ inv.user_ne]
  simp only [List.nil_append]

end JoinOutput

section Claims

/-- C8: the bearer credential is selected by trying the explicit auth
field first, then the `Authorization` header with the `Bearer ` prefix
stripped, then the query parameter, and whenever an earlier channel
supplies a credential the later channels are not consulted (the result
is independent of their contents). -/
theorem c8_credential_precedence :
    (∀ (sid t : String) (hd q : Option String),
      extractToken ⟨sid, some t, hd, q⟩ = some t) ∧
    (∀ (sid a : String) (q : Option String),
      extractToken ⟨sid, none, some a, q⟩ = some (bearerStrip a)) ∧
    (∀ (sid a : String) (q q' : Option String),
      extractToken ⟨sid, none, some a, q⟩ =
        extractToken ⟨sid, none, some a, q'⟩) ∧
    (∀ (sid : String) (q : Option String),
      extractToken ⟨sid, none, none, q⟩ = q) ∧
    (∀ rest : String, bearerStrip ("Bearer " ++ rest) = rest) := by
  refine ⟨?_, ?_, ?_, ?_, ?_⟩
  · intro sid t hd q; rfl
  · intro sid a q; rfl
  · intro sid a q q'; rfl
  · intro sid q; rfl
  · exact bearerStrip_cancel

/-- C7: any two handshakes whose credentials fail verification — for
whatever reason (missing, malformed, expired, invalid) — produce the
identical client-observable outcome: one generic
`error, message Unauthorized` event followed by a forced close, with the
pre-state untouched; nothing distinguishes which check failed. -/
theorem c7_auth_failure_uniform (st : GState)
    (v1 v2 : String → Option String) (h1 h2 : Handshake)
    (f1 : authUser v1 h1 = none) (f2 : authUser v2 h2 = none)
    (hs : h1.socketId = h2.socketId) :
    handleConnection v1 st h1 = handleConnection v2 st h2 ∧
    handleConnection v1 st h1 =
      (st, [.toClient h1.socketId (.errorMsg "Unauthorized" none),
            .forceClose h1.socketId]) := by
  refine ⟨?_, handleConnection_reject v1 st h1 f1⟩
  rw [handleConnection_reject v1 st h1 f1,
    handleConnection_reject v2 st h2 f2, hs]

/-- Witness for C7: a handshake with no credential at all and one with
an invalid credential yield the same rejection. -/
theorem c7_auth_failure_uniform_witness :
    authUser demoVerify ⟨"s1", none, none, none⟩ = none ∧
    authUser demoVerify ⟨"s1", some "badtoken", none, none⟩ = none ∧
    (handleConnection demoVerify initState ⟨"s1", none, none, none⟩ =
        handleConnection demoVerify initState
          ⟨"s1", some "badtoken", none, none⟩ ∧
      handleConnection demoVerify initState ⟨"s1", none, none, none⟩ =
        (initState,
         [.toClient "s1" (.errorMsg "Unauthorized" none),
          .forceClose "s1"])) :=
  ⟨by decide, by decide,
   c7_auth_failure_uniform initState demoVerify demoVerify
     ⟨"s1", none, none, none⟩ ⟨"s1", some "badtoken", none, none⟩
     (by decide) (by decide) rfl⟩

/-- C2: `connect(U, C1); connect(U, C2); disconnect(C1)` leaves the
distributed identity binding for `U` equal to `C2` (the compare-and-delete
refuses to erase the newer binding), and in general after any event
trace the binding for a user, when present, names that user's most
recently established connection. -/
theorem c2_identity_binding (U C1 C2 : String) (hU : U ≠ "")
    (hC : C1 ≠ C2) :
    lookupAssoc (runOps (fun _ => some U) demoResolve initState
      [.connect ⟨C1, some "x", none, none⟩,
       .connect ⟨C2, some "x", none, none⟩,
       .disconnect C1]).redisBinding U = some C2 ∧
    (∀ (v : String → Option String)
       (r : String → String → Except (String × Nat) String)
       (ops : List Op) (u cc : String),
       lookupAssoc (runOps v r initState ops).redisBinding u = some cc →
       lastConnect v ops u = some cc) := by
  constructor
  · have hauth : ∀ (Cx : String),
        authUser (fun _ => some U) ⟨Cx, some "x", none, none⟩ = some U := by
      intro Cx
      unfold authUser extractUserIdFromToken extractToken
      dsimp only
      rw [if_neg (by decide : ¬(("x" : String) = ""))]
      dsimp only
      rw [if_neg hU]
    have hC2 : C2 ≠ C1 := fun hh => hC hh.symm
    simp only [runOps, List.foldl, step]
    rw [handleConnection_accept _ _ _ U (hauth C1)]
    dsimp only
    rw [handleConnection_accept _ _ _ U (hauth C2)]
    dsimp only
    simp [handleDisconnect, setAssoc, lookupAssoc, eraseAssoc, roomPurge,
      removeAll, hC, hC2, hU]
  · exact fun v r ops u cc h => binding_lastConnect v r ops u cc h

/-- Witness for C2 at `U = u1`, `C1 = s1`, `C2 = s2`. -/
theorem c2_identity_binding_witness :
    ("u1" : String) ≠ "" ∧ ("s1" : String) ≠ "s2" ∧
    (lookupAssoc (runOps (fun _ => some "u1") demoResolve initState
      [.connect ⟨"s1", some "x", none, none⟩,
       .connect ⟨"s2", some "x", none, none⟩,
       .disconnect "s1"]).redisBinding "u1" = some "s2" ∧
     (∀ (v : String → Option String)
        (r : String → String → Except (String × Nat) String)
        (ops : List Op) (u cc : String),
        lookupAssoc (runOps v r initState ops).redisBinding u = some cc →
        lastConnect v ops u = some cc)) :=
  ⟨by decide, by decide,
   c2_identity_binding "u1" "s1" "s2" (by decide) (by decide)⟩

/-- C6: after any event trace, every connection is a member of at most
one room — two membership pairs for the same socket name the same room.
(The join handler leaves the previous room before joining the new one,
and the invariant `StateInv` keeps the adapter pairs in lockstep with
the single-valued `socketToRoom` map.) -/
theorem c6_single_room (v : String → Option String)
    (r : String → String → Except (String × Nat) String)
    (ops : List Op) (c r1 r2 : String)
    (h1 : (c, r1) ∈ (runOps v r initState ops).roomPairs)
    (h2 : (c, r2) ∈ (runOps v r initState ops).roomPairs) :
    r1 = r2 := by
  have inv := stateInv_reach v r ops
  have e1 := (inv.pairs_map c r1).mp h1
  have e2 := (inv.pairs_map c r2).mp h2
  exact Option.some.inj (e1.symm.trans e2)

/-- Witness for C6 on a concrete trace with a join. -/
theorem c6_single_room_witness :
    (("s1", "room1") ∈ (runOps demoVerify demoResolve initState
      [.connect hs1, .join "s1" "r"]).roomPairs) ∧
    ("room1" : String) = "room1" :=
  ⟨by decide,
   c6_single_room demoVerify demoResolve
     [.connect hs1, .join "s1" "r"] "s1" "room1" "room1"
     (by decide) (by decide)⟩

/-- C10: after any well-formed event trace, a socket that is not
currently connected has no stroke and no clear rate-counter entry:
disconnect deletes both counters, so counters exist only for connected
sockets and a connection established afterwards starts with a fresh
window. -/
theorem c10_rate_counters_connected (v : String → Option String)
    (r : String → String → Except (String × Nat) String)
    (ops : List Op) (c : String)
    (hwf : wfOps v r initState ops = true)
    (hnc : c ∉ (runOps v r initState ops).connected) :
    lookupAssoc (runOps v r initState ops).strokeRateMap c = none ∧
    lookupAssoc (runOps v r initState ops).clearRateMap c = none := by
  have inv := rateInv_reach v r ops hwf
  constructor
  · cases hl : lookupAssoc (runOps v r initState ops).strokeRateMap c with
    | none => rfl
    | some e => exact absurd (inv.stroke_conn c (by rw [hl]; simp)) hnc
  · cases hl : lookupAssoc (runOps v r initState ops).clearRateMap c with
    | none => rfl
    | some e => exact absurd (inv.clear_conn c (by rw [hl]; simp)) hnc

/-- Witness for C10: a trace that creates a stroke counter and then
disconnects; the counters for the departed socket are gone. -/
theorem c10_rate_counters_connected_witness :
    wfOps demoVerify demoResolve initState
      [.connect hs1, .stroke "s1" 0 0, .disconnect "s1"] = true ∧
    "s1" ∉ (runOps demoVerify demoResolve initState
      [.connect hs1, .stroke "s1" 0 0, .disconnect "s1"]).connected ∧
    (lookupAssoc (runOps demoVerify demoResolve initState
      [.connect hs1, .stroke "s1" 0 0, .disconnect "s1"]).strokeRateMap "s1"
        = none ∧
     lookupAssoc (runOps demoVerify demoResolve initState
      [.connect hs1, .stroke "s1" 0 0, .disconnect "s1"]).clearRateMap "s1"
        = none) :=
  ⟨by decide, by decide,
   c10_rate_counters_connected demoVerify demoResolve
     [.connect hs1, .stroke "s1" 0 0, .disconnect "s1"] "s1"
     (by decide) (by decide)⟩

/-- C1 counterexample: `u1` is alone in `room1` on socket `s1` and sends
a second join for the same room.  The membership immediately before this
join is `[s1]`, whose identity set is `[u1]`, yet the delivered
`chat.joined` confirmation carries `peers = []` — the snapshot excludes
the joiner itself, so it does not equal the membership that existed
immediately before the connection's own (re-)addition. -/
theorem c1_snapshot_counterexample :
    membersOf soloState.roomPairs "room1" = ["s1"] ∧
    lookupAssoc soloState.socketToUser "s1" = some "u1" ∧
    (step demoVerify demoResolve soloState (Op.join "s1" "r")).2 =
      [Emission.toClient "s1" (.chatJoined "room1" "r" []),
       Emission.toRoomExcept "room1" "s1" (.peerJoined "u1")] ∧
    (([] : List String) ≠ ["u1"]) := by
  decide

/-- C1 (amended): after any event trace, every `chat.joined`
confirmation delivered by a join carries as `peers` exactly the
identities of the members **other than the joiner itself** that were in
the room immediately before that connection's own addition (the empty
list for the first joiner). -/
theorem c1_snapshot_amended (v : String → Option String)
    (r : String → String → Except (String × Nat) String)
    (ops : List Op) (c req R req' : String) (ps : List String)
    (hmem : Emission.toClient c (.chatJoined R req' ps) ∈
      (step v r (runOps v r initState ops) (Op.join c req)).2) :
    ps = ((membersOf (runOps v r initState ops).roomPairs R).filter
        (fun s => s ≠ c)).filterMap
      (fun s => lookupAssoc (runOps v r initState ops).socketToUser s) :=
  joinChat_peers_spec r (runOps v r initState ops) c req R req' ps
    (stateInv_reach v r ops) hmem

/-- Witness for the amended C1: `u2` joins `room1` where `u1` already
is; the confirmation's peer list is `[u1]`, the identity of the one
prior member other than the joiner. -/
theorem c1_snapshot_amended_witness :
    (Emission.toClient "s2" (.chatJoined "room1" "r" ["u1"]) ∈
      (step demoVerify demoResolve
        (runOps demoVerify demoResolve initState
          [.connect hs1, .connect hs2, .join "s1" "r"])
        (Op.join "s2" "r")).2) ∧
    (["u1"] = ((membersOf (runOps demoVerify demoResolve initState
        [.connect hs1, .connect hs2, .join "s1" "r"]).roomPairs
          "room1").filter (fun s => s ≠ "s2")).filterMap
      (fun s => lookupAssoc (runOps demoVerify demoResolve initState
        [.connect hs1, .connect hs2, .join "s1" "r"]).socketToUser s)) :=
  ⟨by decide,
   c1_snapshot_amended demoVerify demoResolve
     [.connect hs1, .connect hs2, .join "s1" "r"]
     "s2" "r" "room1" "r" ["u1"] (by decide)⟩

/-- C3: for a connection in a room with a fresh stroke window, a burst
of stroke events whose timestamps all fall within one 1-second window of
the first produces, event by event, a relay broadcast for each of the
first 60 (the threshold) and nothing at all — no broadcast and no error
— for every event after the 60th: `threshold + k` strokes drop exactly
the last `k`, none earlier, silently. -/
theorem c3_stroke_rate_window (st : GState) (c R : String) (t0 : Nat)
    (rest : List Nat)
    (hroom : lookupAssoc st.socketToRoom c = some R)
    (hfresh : lookupAssoc st.strokeRateMap c = none)
    (hwin : ∀ t ∈ rest, t - t0 < STROKE_RATE_WINDOW_MS) :
    strokeSeq st c (t0 :: rest) = (List.range (rest.length + 1)).map
      (fun i => if i < STROKE_RATE_LIMIT
        then [Emission.toRoomExcept R c (.strokeData 0)] else []) :=
  stroke_window_form st c R t0 rest hroom hfresh hwin

/-- Witness for C3: 65 strokes at times 0,10,10,… from `s1` in `room1`;
60 broadcasts then 5 silent drops. -/
theorem c3_stroke_rate_window_witness :
    lookupAssoc pairState.socketToRoom "s1" = some "room1" ∧
    lookupAssoc pairState.strokeRateMap "s1" = none ∧
    (∀ t ∈ List.replicate 64 (10 : Nat), t - 0 < STROKE_RATE_WINDOW_MS) ∧
    strokeSeq pairState "s1" (0 :: List.replicate 64 10) =
      (List.range ((List.replicate 64 (10 : Nat)).length + 1)).map
        (fun i => if i < STROKE_RATE_LIMIT
          then [Emission.toRoomExcept "room1" "s1" (.strokeData 0)] else []) :=
  ⟨by decide, by decide, by decide,
   c3_stroke_rate_window pairState "s1" "room1" 0 (List.replicate 64 10)
     (by decide) (by decide) (by decide)⟩

/-- C5: for a connection in a room with a fresh clear window, a burst of
clear events within one 5-second window broadcasts the first 5 (the
threshold) and, for every clear beyond the threshold, broadcasts nothing
and emits exactly one error event to the sender per excess attempt. -/
theorem c5_clear_rate_window (st : GState) (c R : String) (t0 : Nat)
    (rest : List Nat)
    (hroom : lookupAssoc st.socketToRoom c = some R)
    (hfresh : lookupAssoc st.clearRateMap c = none)
    (hwin : ∀ t ∈ rest, t - t0 < CLEAR_RATE_WINDOW_MS) :
    clearSeq st c (t0 :: rest) = (List.range (rest.length + 1)).map
      (fun i => if i < CLEAR_RATE_LIMIT
        then [Emission.toRoomExcept R c (.clearData 0)]
        else [Emission.toClient c
          (.errorMsg "Too many clear events. Max 5 per 5s." (some 403))]) :=
  clear_window_form st c R t0 rest hroom hfresh hwin

/-- Witness for C5: 8 clears at times 0,10,10,… from `s1` in `room1`;
5 broadcasts then 3 rejections with one error each. -/
theorem c5_clear_rate_window_witness :
    lookupAssoc pairState.socketToRoom "s1" = some "room1" ∧
    lookupAssoc pairState.clearRateMap "s1" = none ∧
    (∀ t ∈ List.replicate 7 (10 : Nat), t - 0 < CLEAR_RATE_WINDOW_MS) ∧
    clearSeq pairState "s1" (0 :: List.replicate 7 10) =
      (List.range ((List.replicate 7 (10 : Nat)).length + 1)).map
        (fun i => if i < CLEAR_RATE_LIMIT
          then [Emission.toRoomExcept "room1" "s1" (.clearData 0)]
          else [Emission.toClient "s1"
            (.errorMsg "Too many clear events. Max 5 per 5s." (some 403))]) :=
  ⟨by decide, by decide, by decide,
   c5_clear_rate_window pairState "s1" "room1" 0 (List.replicate 7 10)
     (by decide) (by decide) (by decide)⟩

set_option maxRecDepth 8000 in
/-- C4 counterexample: `s1` is connected but in no room and sends 61
strokes at the same instant.  The first stroke yields the
`Not in a room` error, but the 61st — dropped by the rate limiter, which
runs before the membership check — produces no emission at all: no error
event reaches the sender, refuting the claim that every stroke from a
room-less connection yields an error event. -/
theorem c4_not_in_room_counterexample :
    lookupAssoc authState.socketToRoom "s1" = none ∧
    (strokeSeq authState "s1" (List.replicate 61 0)).get? 0 =
      some [Emission.toClient "s1" (.errorMsg "Not in a room" (some 403))] ∧
    (strokeSeq authState "s1" (List.replicate 61 0)).get? 60 = some [] := by
  decide

/-- C4 (amended): a `draw.stroke` or `draw.clear` from a connection that
is in no room is never broadcast; it yields an error event to the sender
whenever it is not consumed by its class's rate limiter, a rate-limited
stroke being dropped silently with no emission, and a rate-limited clear
yielding the rate-limit error instead. -/
theorem c4_not_in_room_amended (st : GState) (c : String) (now pay : Nat)
    (hroom : lookupAssoc st.socketToRoom c = none) :
    ((isStrokeRateLimited st.strokeRateMap c now).1 = false →
      (drawStroke st c now pay).2 =
        [.toClient c (.errorMsg "Not in a room" (some 403))]) ∧
    ((isStrokeRateLimited st.strokeRateMap c now).1 = true →
      (drawStroke st c now pay).2 = []) ∧
    ((isClearRateLimited st.clearRateMap c now).1 = false →
      (clearCanvas st c now pay).2 =
        [.toClient c (.errorMsg "Not in a room" (some 403))]) ∧
    ((isClearRateLimited st.clearRateMap c now).1 = true →
      (clearCanvas st c now pay).2 =
        [.toClient c
          (.errorMsg "Too many clear events. Max 5 per 5s." (some 403))]) ∧
    (∀ (room sender : String) (ev : Payload),
      Emission.toRoomExcept room sender ev ∉ (drawStroke st c now pay).2 ∧
      Emission.toRoomExcept room sender ev ∉ (clearCanvas st c now pay).2) := by
  refine ⟨fun h1 => drawStroke_noroom_out st c now pay h1 hroom,
          fun h1 => drawStroke_limited_out st c now pay h1,
          fun h1 => clearCanvas_noroom_out st c now pay h1 hroom,
          fun h1 => clearCanvas_limited_out st c now pay h1, ?_⟩
  intro room sender ev
  constructor
  · cases hg : (isStrokeRateLimited st.strokeRateMap c now).1 with
    | true =>
      rw [drawStroke_limited_out st c now pay hg]
      simp
    | false =>
      rw [drawStroke_noroom_out st c now pay hg hroom]
      simp
  · cases hg : (isClearRateLimited st.clearRateMap c now).1 with
    | true =>
      rw [clearCanvas_limited_out st c now pay hg]
      simp
    | false =>
      rw [clearCanvas_noroom_out st c now pay hg hroom]
      simp

/-- Witness for the amended C4 at the connected-but-room-less state. -/
theorem c4_not_in_room_amended_witness :
    lookupAssoc authState.socketToRoom "s1" = none ∧
    (((isStrokeRateLimited authState.strokeRateMap "s1" 0).1 = false →
      (drawStroke authState "s1" 0 0).2 =
        [.toClient "s1" (.errorMsg "Not in a room" (some 403))]) ∧
    ((isStrokeRateLimited authState.strokeRateMap "s1" 0).1 = true →
      (drawStroke authState "s1" 0 0).2 = []) ∧
    ((isClearRateLimited authState.clearRateMap "s1" 0).1 = false →
      (clearCanvas authState "s1" 0 0).2 =
        [.toClient "s1" (.errorMsg "Not in a room" (some 403))]) ∧
    ((isClearRateLimited authState.clearRateMap "s1" 0).1 = true →
      (clearCanvas authState "s1" 0 0).2 =
        [.toClient "s1"
          (.errorMsg "Too many clear events. Max 5 per 5s." (some 403))]) ∧
    (∀ (room sender : String) (ev : Payload),
      Emission.toRoomExcept room sender ev ∉ (drawStroke authState "s1" 0 0).2 ∧
      Emission.toRoomExcept room sender ev ∉ (clearCanvas authState "s1" 0 0).2)) :=
  ⟨by decide, c4_not_in_room_amended authState "s1" 0 0 (by decide)⟩

/-- C9: a join from a connection already in room `R` that resolves to
the same `R` is a no-op on the state — membership unchanged, no
`draw.peer.left` — but replays the confirmation: the joiner receives a
second `chat.joined` whose peers are the other current members, and the
rest of the room receives a duplicate `draw.peer.joined` naming the
joiner's identity. -/
theorem c9_rejoin_same_room (v : String → Option String)
    (r : String → String → Except (String × Nat) String)
    (ops : List Op) (c req R u : String)
    (hstu : lookupAssoc (runOps v r initState ops).socketToUser c = some u)
    (hroom : lookupAssoc (runOps v r initState ops).socketToRoom c = some R)
    (hres : r req u = Except.ok R) :
    step v r (runOps v r initState ops) (Op.join c req) =
      (runOps v r initState ops,
       [Emission.toClient c (.chatJoined R req
          (((membersOf (runOps v r initState ops).roomPairs R).filter
              (fun s => s ≠ c)).filterMap
            (fun s => lookupAssoc
              (runOps v r initState ops).socketToUser s))),
        Emission.toRoomExcept R c (.peerJoined u)]) :=
  joinChat_rejoin_spec r (runOps v r initState ops) c req R u
    (stateInv_reach v r ops) hstu hroom hres

/-- Witness for C9: `s2` (user `u2`), already in `room1` with `s1`,
re-joins `room1`. -/
theorem c9_rejoin_same_room_witness :
    lookupAssoc (runOps demoVerify demoResolve initState
      [.connect hs1, .connect hs2, .join "s1" "r", .join "s2" "r"]
      ).socketToUser "s2" = some "u2" ∧
    lookupAssoc (runOps demoVerify demoResolve initState
      [.connect hs1, .connect hs2, .join "s1" "r", .join "s2" "r"]
      ).socketToRoom "s2" = some "room1" ∧
    demoResolve "r" "u2" = Except.ok "room1" ∧
    step demoVerify demoResolve
      (runOps demoVerify demoResolve initState
        [.connect hs1, .connect hs2, .join "s1" "r", .join "s2" "r"])
      (Op.join "s2" "r") =
      (runOps demoVerify demoResolve initState
        [.connect hs1, .connect hs2, .join "s1" "r", .join "s2" "r"],
       [Emission.toClient "s2" (.chatJoined "room1" "r"
          (((membersOf (runOps demoVerify demoResolve initState
              [.connect hs1, .connect hs2, .join "s1" "r", .join "s2" "r"]
              ).roomPairs "room1").filter
              (fun s => s ≠ "s2")).filterMap
            (fun s => lookupAssoc (runOps demoVerify demoResolve initState
              [.connect hs1, .connect hs2, .join "s1" "r", .join "s2" "r"]
              ).socketToUser s))),
        Emission.toRoomExcept "room1" "s2" (.peerJoined "u2")]) :=
  ⟨by decide, by decide, by rfl,
   c9_rejoin_same_room demoVerify demoResolve
     [.connect hs1, .connect hs2, .join "s1" "r", .join "s2" "r"]
     "s2" "r" "room1" "u2" (by decide) (by decide) (by rfl)⟩

end Claims

end Drawback
